import Mathlib

/-!
Verification of the stock-code resolution and message-normalization pipeline
of the webhook relay (src/api/webhook.js and its variants src/unnamed/part_000
... part_005).

Strings are modelled as lists of unicode scalar values (`List Char`).  The
JavaScript regular expressions used by the pipeline are deterministic on the
patterns that occur (every greedy sub-pattern is followed by a character that
cannot extend it), so each one is embedded as a first-match scanner that tries
to match at each position from the left, exactly like the JS engine does.
-/

abbrev Str : Type := List Char

/-- ASCII digit, JS `\\d` = `[0-9]` (code points 48-57). -/
def isDigitC (c : Char) : Bool := decide (48 ≤ c.toNat  ∧  c.toNat ≤ 57)

/-- The colon class: ASCII `:` (58) and full-width colon (U+FF1A = 65306). -/
def isColonC (c : Char) : Bool := decide (c.toNat = 58 ∨ c.toNat = 65306)

/-- JS whitespace (ECMAScript WhiteSpace plus LineTerminator): TAB LF VT FF CR
SPACE NBSP(160) OGHAM(5760) U+2000-U+200A LS(8232) PS(8233) NNBSP(8239)
MMSP(8287) IDSP(12288) BOM(65279).  The same set backs String.prototype.trim. -/
def wsJS (c : Char) : Bool :=
  decide (c.toNat = 32 ∨ c.toNat = 9 ∨ c.toNat = 10 ∨ c.toNat = 13 ∨
    c.toNat = 11 ∨ c.toNat = 12 ∨ c.toNat = 160 ∨ c.toNat = 5760 ∨
    (8192 ≤ c.toNat  ∧  c.toNat ≤ 8202) ∨ c.toNat = 8232 ∨ c.toNat = 8233 ∨
    c.toNat = 8239 ∨ c.toNat = 8287 ∨ c.toNat = 12288 ∨ c.toNat = 65279)

/-- Greedy run of characters satisfying `p` (JS `p*` when the next pattern
element cannot match a `p`-character). -/
def spanP (p : Char → Bool) : Str → Str × Str
  | [] => ([], [])
  | c :: cs =>
    if p c then
      let q := spanP p cs
      (c :: q.1, q.2)
    else ([], c :: cs)

/-- Greedy run of at most `n` digits (JS `\d{1,n}` with nothing after it). -/
def digitsTake : Nat → Str → Str × Str
  | 0, s => ([], s)
  | _ + 1, [] => ([], [])
  | n + 1, c :: cs =>
    if isDigitC c then
      let q := digitsTake n cs
      (c :: q.1, q.2)
    else ([], c :: cs)

/-- Expect the literal `pat` at the head of `s`; return the rest. -/
def dropLit : Str → Str → Option Str
  | [], s => some s
  | _ :: _, [] => none
  | p :: ps, c :: cs => if c = p then dropLit ps cs else none

/-! ### The two patterns of the substitution pipeline (src/api/webhook.js)

`tryLabel` matches `(标的\s*[:：]\s*)(\d{1,6})` at the start of the input (the
greedy runs need no backtracking here: each `\s*` is followed by a requirement
no whitespace character can satisfy, and `\d{1,6}` is the last element).  It
returns the text of capture group 1, the digits of group 2, and the rest.

`tryMarker` matches `__LOOKUP__(\d{1,6})__` at the start of the input.  When
more than 6 digits follow `__LOOKUP__`, every backtracking attempt of
`\d{1,6}` still leaves a digit where `__` is required, so the JS engine fails;
reading the digit run greedily and checking its length against 6 is
equivalent. -/
def mkStr : Str := "__LOOKUP__".data

def tryLabel : Str → Option (Str × Str × Str)
  | c0 :: c1 :: s1 =>
    if c0 = '标' ∧ c1 = '的' then
      let w1 := (spanP wsJS s1).1
      match (spanP wsJS s1).2 with
      | col :: s3 =>
        if isColonC col then
          let w2 := (spanP wsJS s3).1
          let s4 := (spanP wsJS s3).2
          let ds := (digitsTake 6 s4).1
          if ds = [] then none
          else some ('标' :: '的' :: (w1 ++ col :: w2), ds, (digitsTake 6 s4).2)
        else none
      | [] => none
    else none
  | _ => none

def tryMarkerAux (s1 : Str) : Option (Str × Str) :=
  let run := (spanP isDigitC s1).1
  if run = [] then none
  else if run.length ≤ 6 then
    match dropLit ['_', '_'] ((spanP isDigitC s1).2) with
    | none => none
    | some r => some (run, r)
  else none

def tryMarker (s : Str) : Option (Str × Str) :=
  match dropLit mkStr s with
  | none => none
  | some s1 => tryMarkerAux s1

/-! ### The scanners of the substitution pipeline (src/api/webhook.js)

`replaceTargets` embeds
`body.replace(/(标的\s*[:：]\s*)(\d{1,6})/g, (m,g1,code) => g1 + matched marker)`
from webhook.js line 130-135; the guard `/^\d{1,6}$/.test(code)` in the
callback is always true of the captured group, so the replacement is
unconditional.  `resolveSubst f` is the substitution scan of `resolveTargets`
(line 153-157) with `f` standing for the code → name map; `markerCodes` is
`text.match(/__LOOKUP__(\d{1,6})__/g)` mapped to the capture (line 141).
A JS global replace scans left to right and resumes after each match, which is
exactly what these scanners do; fuel (the input length) makes them structurally
recursive so that they evaluate inside the kernel. -/
def mkMarker (code : Str) : Str := mkStr ++ code ++ ['_', '_']

def replTF : Nat → Str → Str
  | 0, _ => []
  | _ + 1, [] => []
  | n + 1, c :: cs =>
    match tryLabel (c :: cs) with
    | some (g1, code, r) => g1 ++ mkMarker code ++ replTF n r
    | none => c :: replTF n cs

def replaceTargets (s : Str) : Str := replTF s.length s

/-- The replacement of one marker: `name ? name + "(" + code + ")" : code`. -/
def substOne (f : Str → Option Str) (code : Str) : Str :=
  match f code with
  | some n => n ++ '(' :: (code ++ [')'])
  | none => code

def resolTF (f : Str → Option Str) : Nat → Str → Str
  | 0, _ => []
  | _ + 1, [] => []
  | n + 1, c :: cs =>
    match tryMarker (c :: cs) with
    | some (code, r) => substOne f code ++ resolTF f n r
    | none => c :: resolTF f n cs

def resolveSubst (f : Str → Option Str) (s : Str) : Str := resolTF f s.length s

def codesTF : Nat → Str → List Str
  | 0, _ => []
  | _ + 1, [] => []
  | n + 1, c :: cs =>
    match tryMarker (c :: cs) with
    | some (code, r) => code :: codesTF n r
    | none => codesTF n cs

def markerCodes (s : Str) : List Str := codesTF s.length s

/-- Fused one-pass form of `resolveSubst f ∘ replaceTargets`, used only as a
proof device (`pipe_eq` below shows the composition equals it). -/
def pipeTF (f : Str → Option Str) : Nat → Str → Str
  | 0, _ => []
  | _ + 1, [] => []
  | n + 1, c :: cs =>
    match tryLabel (c :: cs) with
    | some (g1, code, r) => g1 ++ substOne f code ++ pipeTF f n r
    | none =>
      match tryMarker (c :: cs) with
      | some (code, r) => substOne f code ++ pipeTF f n r
      | none => c :: pipeTF f n cs

def pipeSub (f : Str → Option Str) (s : Str) : Str := pipeTF f s.length s

/-- No occurrence of the `__LOOKUP__(\d{1,6})__` pattern anywhere in `t`. -/
def MarkerFree (t : Str) : Prop := ∀ i : Nat, tryMarker (t.drop i) = none

/-! ### Idempotence of the substitution pass -/
/-- A resolved display name that cannot interfere with the two patterns: it is
non-empty, does not start with a digit or whitespace, and contains neither an
underscore nor the label character. -/
def InertName (nm : Str) : Prop :=
  nm ≠ [] ∧ (∀ x xs, nm = x :: xs → isDigitC x = false ∧ wsJS x = false) ∧
  ¬ '_' ∈ nm ∧ ¬ '标' ∈ nm

def InertNames (f : Str → Option Str) : Prop :=
  ∀ c nm, f c = some nm → InertName nm

/-! ### resolveTargets (src/api/webhook.js lines 139-158)

The function collects `[...new Set(text.match(/__LOOKUP__(\d{1,6})__/g).map(
s => s.slice(10, -2)))]`, maps the resolver over the deduplicated codes, turns
the result into `nameMap = Object.fromEntries(codes.map((code,i) =>
[code, names[i]]))`, and replaces every marker by `name ? name(code) : code`
where `name = nameMap[code]` (`undefined`, `null` and the empty string are all
falsy). -/
def jsSetDedupAux (seen : List Str) : List Str → List Str
  | [] => []
  | x :: xs =>
    if x ∈ seen then jsSetDedupAux seen xs
    else x :: jsSetDedupAux (x :: seen) xs

/-- JS `[...new Set(list)]`: first occurrence kept, in insertion order. -/
def jsSetDedup (l : List Str) : List Str := jsSetDedupAux [] l

/-- First-match association lookup (`Object.fromEntries` keeps the last entry
for a duplicate key, but the keys handed to it here are deduplicated, so
first-match and last-match coincide). -/
def lookupA : List (Str × Option Str) → Str → Option (Option Str)
  | [], _ => none
  | kv :: rest, c => if c = kv.1 then some kv.2 else lookupA rest c

/-- JS truthiness of the looked-up name: `undefined`, `null` and `""` are
falsy. -/
def jsTruthy : Option Str → Option Str
  | some [] => none
  | x => x

def resolveTargets (f : Str → Option Str) (text : Str) : Str :=
  let codes := jsSetDedup (markerCodes text)
  if codes = [] then text
  else
    resolveSubst
      (fun c => jsTruthy ((lookupA (codes.map (fun c2 => (c2, f c2))) c).bind id))
      text

/-! ### Substring preservation (claim C1) -/
def leadsWith : Str → Str → Bool
  | [], _ => true
  | _ :: _, [] => false
  | p :: ps, c :: cs => c = p && leadsWith ps cs

/-- `containsSub pat s` holds when `pat` occurs contiguously inside `s`. -/
def containsSub (pat : Str) : Str → Bool
  | [] => leadsWith pat []
  | c :: cs => leadsWith pat (c :: cs) || containsSub pat cs

/-! ### The marking + substitution pipeline of the handler (webhook.js
lines 284-286): `resolveTargets(replaceTargets(messageBody))`.  -/
def pipelineText (f : Str → Option Str) (t : Str) : Str :=
  resolveTargets f (replaceTargets t)

/-- The codes the pipeline extracts and hands to the resolver. -/
def extractedCodes (t : Str) : List Str := markerCodes (replaceTargets t)

/-- Boolean form of `InertName`, for concrete checking. -/
def inertNameB (nm : Str) : Bool :=
  (match nm with
    | [] => false
    | x :: _ => !(isDigitC x) && !(wsJS x)) &&
  !(decide ('_' ∈ nm)) && !(decide ('标' ∈ nm))

def c1Resolver (_c : Str) : Option Str := none

def c1Text : Str := "标的: 600000, 信号: 买信号".data

def cexResolver (c : Str) : Option Str :=
  if c = "12".data then some "3".data
  else if c = "3".data then some "X".data
  else none

def cexText : Str := "标的:12".data

def idemResolver (c : Str) : Option Str :=
  if c = "700".data then some "腾讯".data else none

def idemText : Str := "标的: 700, 多信号!".data

/-- The list of codes `resolveTargets` maps the resolver over: the
deduplicated matches of the marker pattern on the marked text (webhook.js
lines 141 and 147). -/
def resolverCallCodes (t : Str) : List Str :=
  jsSetDedup (markerCodes (replaceTargets t))

/-! ### Market classification and two-provider name lookup
(src/api/webhook.js lines 64-127).  The network is a parameter
`net : Str → FetchOutcome` mapping a request URL to its outcome; `.err`
stands for any thrown error (timeout, transport failure), `.notOk` for a
non-2xx response, `.ok body` for a 2xx response whose decoded text is
`body`. -/
inductive Mkt : Type
  | hk
  | sh
  | sz
deriving DecidableEq

def mprefStr : Mkt → Str
  | .hk => "hk".data
  | .sh => "sh".data
  | .sz => "sz".data

/-- webhook.js 113-120: `/^\d{1,5}$/` → hk; `/^\d{6}$/` and `/^[56]/` → sh,
`/^[013]/` → sz; anything else → null (UNKNOWN). -/
def classifyCode (code : Str) : Option Mkt :=
  if code.all isDigitC ∧ 1 ≤ code.length ∧ code.length ≤ 5 then some .hk
  else if code.all isDigitC ∧ code.length = 6 then
    match code with
    | c :: _ =>
      if c = '5' ∨ c = '6' then some .sh
      else if c = '0' ∨ c = '1' ∨ c = '3' then some .sz
      else none
    | [] => none
  else none

/-- webhook.js 68-70: `String(code).padStart(5, "0")`. -/
def padHK (code : Str) : Str :=
  if 5 ≤ code.length then code else List.replicate (5 - code.length) '0' ++ code

inductive FetchOutcome : Type
  | err
  | notOk
  | ok (body : Str)

def sinaUrl (p : Mkt) (finalCode : Str) : Str :=
  "https://hq.sinajs.cn/list=".data ++ mprefStr p ++ finalCode

def tencentUrl (p : Mkt) (finalCode : Str) : Str :=
  "https://qt.gtimg.cn/q=".data ++ mprefStr p ++ finalCode

/-- JS `String.prototype.split(sep)` (single-character separator). -/
def splitOnChar (sep : Char) : Str → List Str
  | [] => [[]]
  | c :: cs =>
    match splitOnChar sep cs with
    | [] => [[c]]
    | h :: t => if c = sep then [] :: h :: t else (c :: h) :: t

/-- JS `String.prototype.trim()`. -/
def trimJS (s : Str) : Str :=
  (spanP wsJS ((spanP wsJS s).2.reverse)).2.reverse

/-- webhook.js 83-84: `text.split('"')[1]?.split(",")[0]?.trim()` then
`name || null`. -/
def parseSina (body : Str) : Option Str :=
  match (splitOnChar '"' body).get? 1 with
  | none => none
  | some part =>
    let nm := trimJS ((splitOnChar ',' part).headD [])
    if nm = [] then none else some nm

/-- webhook.js 101-103: `parts = text.split("~")`; if `parts.length > 2` then
`parts[1]?.trim() || null` else null. -/
def parseTencent (body : Str) : Option Str :=
  let parts := splitOnChar '~' body
  if 2 < parts.length then
    let nm := trimJS (parts.getD 1 [])
    if nm = [] then none else some nm
  else none

/-- webhook.js 72-88; a thrown error or a non-2xx response yields null. -/
def getStockNameFromSina (net : Str → FetchOutcome) (code : Str) (p : Mkt) :
    Option Str :=
  let finalCode := if p = .hk then padHK code else code
  match net (sinaUrl p finalCode) with
  | .ok body => parseSina body
  | _ => none

/-- webhook.js 90-107. -/
def getStockNameFromTencent (net : Str → FetchOutcome) (code : Str) (p : Mkt) :
    Option Str :=
  let finalCode := if p = .hk then padHK code else code
  match net (tencentUrl p finalCode) with
  | .ok body => parseTencent body
  | _ => none

/-- webhook.js 109-127, with the list of URLs requested alongside the result:
Sina is always tried first, Tencent only when Sina yielded null. -/
def getChineseStockNameT (net : Str → FetchOutcome) (code : Str) :
    Option Str × List Str :=
  match classifyCode code with
  | none => (none, [])
  | some p =>
    let finalCode := if p = .hk then padHK code else code
    match getStockNameFromSina net code p with
    | some nm => (some nm, [sinaUrl p finalCode])
    | none =>
      (getStockNameFromTencent net code p,
       [sinaUrl p finalCode, tencentUrl p finalCode])

def getChineseStockName (net : Str → FetchOutcome) (code : Str) : Option Str :=
  (getChineseStockNameT net code).1

def c3Net (u : Str) : FetchOutcome :=
  if u = tencentUrl .sz "002074".data then .ok "a~国轩高科~b~c".data else .err

def errNet (_u : Str) : FetchOutcome := .err

/-! ### The part_000 variant (src/unnamed/part_000 lines 33-94): its Sina
query does not pad HK codes; only its Tencent fallback does. -/
def part000SinaUrl (p : Mkt) (code : Str) : Str :=
  "https://hq.sinajs.cn/list=".data ++ mprefStr p ++ code

def part000TencentUrl (p : Mkt) (code : Str) : Str :=
  "https://qt.gtimg.cn/q=".data ++ mprefStr p ++
    (if p = .hk then padHK code else code)

/-- part_000 lines 41-45: quote-split, `parts.length > 1 && parts[1] &&
parts[1].length > 1`, then first comma field (no trim). -/
def part000ParseSina (body : Str) : Option Str :=
  match (splitOnChar '"' body).get? 1 with
  | some p1 =>
    if p1 ≠ [] ∧ 1 < p1.length then some ((splitOnChar ',' p1).headD [])
    else none
  | none => none

/-- part_000 lines 63-67: tilde-split, `parts.length > 1 && parts[1]` (no
trim). -/
def part000ParseTencent (body : Str) : Option Str :=
  match (splitOnChar '~' body).get? 1 with
  | some p1 => if p1 ≠ [] then some p1 else none
  | none => none

def part000Sina (net : Str → FetchOutcome) (code : Str) (p : Mkt) : Option Str :=
  match net (part000SinaUrl p code) with
  | .ok body => part000ParseSina body
  | _ => none

def part000Tencent (net : Str → FetchOutcome) (code : Str) (p : Mkt) : Option Str :=
  match net (part000TencentUrl p code) with
  | .ok body => part000ParseTencent body
  | _ => none

/-- part_000 lines 75-88. -/
def part000Classify (code : Str) : Option Mkt :=
  if code.length ≤ 5 ∧ code ≠ [] ∧ code.all isDigitC then some .hk
  else if code.length = 6 ∧ code.all isDigitC then
    match code with
    | c :: _ =>
      if c = '6' ∨ c = '5' then some .sh
      else if c = '0' ∨ c = '3' ∨ c = '1' then some .sz
      else none
    | [] => none
  else none

/-- part_000 lines 74-94 with the URL trace; `if (chineseName) return` uses
JS truthiness, so an empty string from Sina also falls through to Tencent. -/
def part000_getChineseStockNameT (net : Str → FetchOutcome) (code : Str) :
    Option Str × List Str :=
  match part000Classify code with
  | none => (none, [])
  | some p =>
    match jsTruthy (part000Sina net code p) with
    | some nm => (some nm, [part000SinaUrl p code])
    | none =>
      (part000Tencent net code p,
       [part000SinaUrl p code, part000TencentUrl p code])

/-! ### getRawBody (src/api/webhook.js lines 20-36)

Data chunks stream in; the cumulative size in bytes is checked against
`maxSize` (default `1024 * 1024`) after each chunk; crossing the limit
rejects the promise with "Payload too large" and destroys the request, and
otherwise the concatenation of the chunks is resolved on end.  A chunk is
modelled as decoded text whose byte count is its UTF-8 length. -/
def utf8Len (c : Char) : Nat :=
  if c.toNat < 128 then 1
  else if c.toNat < 2048 then 2
  else if c.toNat < 65536 then 3
  else 4

def bytesLen (s : Str) : Nat := (s.map utf8Len).sum

structure RawBodyResult where
  outcome : Except Str Str
  destroyed : Bool

def getRawBodyAux (maxSize : Nat) : Str → Nat → List Str → RawBodyResult
  | acc, _, [] => ⟨.ok acc, false⟩
  | acc, size, chunk :: rest =>
    let size2 := size + bytesLen chunk
    if maxSize < size2 then ⟨.error "Payload too large".data, true⟩
    else getRawBodyAux maxSize (acc ++ chunk) size2 rest

def getRawBody (chunks : List Str) : RawBodyResult :=
  getRawBodyAux 1048576 [] 0 chunks

/-! ### A model of the JS builtins JSON.parse / JSON.stringify

These are used by `stringifyAlertBody` (webhook.js line 53-62) and by the
relay envelope (line 301).  JSON numbers are represented by their source
lexeme; `String(v)` of a number then reproduces the lexeme, which agrees with
JS whenever the lexeme is in the form JS itself would print (plain integers
and decimals) — exponent or non-normalized forms would differ; this is a
modelling approximation of floating-point formatting, recorded here once.
Lone UTF-16 surrogates cannot inhabit `Char` (unicode scalar values), so a
`\uXXXX` escape denoting a lone surrogate parses to U+FFFD; surrogate pairs
combine as in JS. -/
mutual
inductive JVal : Type
  | str (s : Str)
  | num (lexeme : Str)
  | bool (b : Bool)
  | null
  | arr (xs : JArr)
  | obj (kvs : JObj)
inductive JArr : Type
  | nil
  | cons (hd : JVal) (tl : JArr)
inductive JObj : Type
  | nil
  | cons (k : Str) (v : JVal) (tl : JObj)
end

def hexDigitL (n : Nat) : Char :=
  if n < 10 then Char.ofNat (48 + n) else Char.ofNat (87 + n)

/-- JSON.stringify escaping of one character (QuoteJSONString). -/
def escChar (c : Char) : Str :=
  if c = '"' then ['\\', '"']
  else if c = '\\' then ['\\', '\\']
  else if c = '\u0008' then ['\\', 'b']
  else if c = '\t' then ['\\', 't']
  else if c = '\n' then ['\\', 'n']
  else if c = '\u000c' then ['\\', 'f']
  else if c = '\r' then ['\\', 'r']
  else if c.toNat < 32 then
    ['\\', 'u', '0', '0', hexDigitL (c.toNat / 16), hexDigitL (c.toNat % 16)]
  else [c]

def escapeJson : Str → Str
  | [] => []
  | c :: cs => escChar c ++ escapeJson cs

mutual
/-- Compact `JSON.stringify`. -/
def jstr : JVal → Str
  | .str s => '"' :: escapeJson s ++ ['"']
  | .num lx => lx
  | .bool true => "true".data
  | .bool false => "false".data
  | .null => "null".data
  | .arr xs => '[' :: jarrStr xs ++ [']']
  | .obj kvs => '\x7b' :: jobjStr kvs ++ ['\x7d']
def jarrStr : JArr → Str
  | .nil => []
  | .cons v .nil => jstr v
  | .cons v (.cons w tl) => jstr v ++ ',' :: jarrStr (JArr.cons w tl)
def jobjStr : JObj → Str
  | .nil => []
  | .cons k v .nil => '"' :: escapeJson k ++ '"' :: ':' :: jstr v
  | .cons k v (.cons k2 v2 tl) =>
    ('"' :: escapeJson k ++ '"' :: ':' :: jstr v) ++
      ',' :: jobjStr (JObj.cons k2 v2 tl)
end

/-- JSON whitespace (only these four, per the JSON grammar). -/
def jsonWs (c : Char) : Bool := c = ' ' || c = '\t' || c = '\n' || c = '\r'

def skipJsonWs (s : Str) : Str := (spanP jsonWs s).2

def hexVal (c : Char) : Option Nat :=
  if 48 ≤ c.toNat ∧ c.toNat ≤ 57 then some (c.toNat - 48)
  else if 97 ≤ c.toNat ∧ c.toNat ≤ 102 then some (c.toNat - 87)
  else if 65 ≤ c.toNat ∧ c.toNat ≤ 70 then some (c.toNat - 55)
  else none

def hex4 (h1 h2 h3 h4 : Char) : Option Nat :=
  match hexVal h1, hexVal h2, hexVal h3, hexVal h4 with
  | some a, some b, some c, some d => some (((a * 16 + b) * 16 + c) * 16 + d)
  | _, _, _, _ => none

/-- One escape character after a backslash, except the `u` case. -/
def unescChar (e : Char) : Option Char :=
  if e = '"' ∨ e = '\\' ∨ e = '/' then some e
  else if e = 'b' then some '\u0008'
  else if e = 'f' then some '\u000c'
  else if e = 'n' then some '\n'
  else if e = 'r' then some '\r'
  else if e = 't' then some '\t'
  else none

def optStep (o : Option (Str × Str)) (ch : Char) : Option (Str × Str) :=
  match o with
  | some (s, r) => some (ch :: s, r)
  | none => none

/-- Continuation after a `\uXXXX` escape decoded to code unit `cp`:
high surrogates try to pair with a following `\uXXXX` low surrogate,
unpaired surrogates decode to U+FFFD, and other units stand alone. -/
def uCont (pjn : Str → Option (Str × Str)) (cp : Nat) (cs3 : Str) :
    Option (Str × Str) :=
  if 55296 ≤ cp ∧ cp ≤ 56319 then
    match cs3 with
    | '\\' :: 'u' :: g1 :: g2 :: g3 :: g4 :: cs4 =>
      match hex4 g1 g2 g3 g4 with
      | some lo =>
        if 56320 ≤ lo ∧ lo ≤ 57343 then
          optStep (pjn cs4)
            (Char.ofNat (65536 + (cp - 55296) * 1024 + (lo - 56320)))
        else optStep (pjn cs3) '�'
      | none => optStep (pjn cs3) '�'
    | _ => optStep (pjn cs3) '�'
  else if 56320 ≤ cp ∧ cp ≤ 57343 then optStep (pjn cs3) '�'
  else optStep (pjn cs3) (Char.ofNat cp)

def hexCont (pjn : Str → Option (Str × Str)) (o : Option Nat) (cs3 : Str) :
    Option (Str × Str) :=
  match o with
  | none => none
  | some cp => uCont pjn cp cs3

/-- What follows a backslash inside a JSON string. -/
def bsCont (pjn : Str → Option (Str × Str)) : Str → Option (Str × Str)
  | [] => none
  | 'u' :: h1 :: h2 :: h3 :: h4 :: cs3 => hexCont pjn (hex4 h1 h2 h3 h4) cs3
  | e :: cs2 =>
    match unescChar e with
    | none => none
    | some ch => optStep (pjn cs2) ch

/-- JSON string body parse, after the opening quote; returns the decoded
string and the input after the closing quote. Fueled for kernel reduction. -/
def parseJStrF : Nat → Str → Option (Str × Str)
  | 0, _ => none
  | _+1, [] => none
  | n+1, c :: cs =>
    if c = '"' then some ([], cs)
    else if c = '\\' then bsCont (fun t => parseJStrF n t) cs
    else if c.toNat < 32 then none
    else optStep (parseJStrF n cs) c

def parseJString (s : Str) : Option (Str × Str) := parseJStrF s.length s

/-- Decimal value of a digit string. -/
def decVal (s : Str) : Nat := s.foldl (fun a c => a * 10 + (c.toNat - 48)) 0

/-- A JS array-index property key: canonical decimal, value below 2^32 - 1.
Such keys are enumerated first, in ascending numeric order. -/
def intLikeKey (k : Str) : Bool :=
  match k with
  | [] => false
  | c :: cs =>
    isDigitC c && cs.all isDigitC && (!(c = '0') || decide (cs = [])) &&
      decide (decVal (c :: cs) < 4294967295)

/-- Property assignment `obj[k] = v` keeping the JS own-property order:
array-index keys first in ascending numeric order, then string keys in
insertion order; assigning an existing key updates in place. -/
def jsAssign (k : Str) (v : JVal) : JObj → JObj
  | .nil => .cons k v .nil
  | .cons k2 v2 tl =>
    if k = k2 then .cons k2 v tl
    else if intLikeKey k && (!intLikeKey k2 || decide (decVal k < decVal k2)) then
      .cons k v (.cons k2 v2 tl)
    else .cons k2 v2 (jsAssign k v tl)

def arrSnoc : JArr → JVal → JArr
  | .nil, v => .cons v .nil
  | .cons w tl, v => .cons w (arrSnoc tl v)

/-- JSON number grammar, integer part: `0 | [1-9][0-9]*`. -/
def jIntPart : Str → Option (Str × Str)
  | [] => none
  | c :: r =>
    if c = '0' then some (['0'], r)
    else if isDigitC c then some (c :: (spanP isDigitC r).1, (spanP isDigitC r).2)
    else none

/-- JSON number grammar, optional fraction `(\.[0-9]+)?`. -/
def jFracPart : Str → Option (Str × Str)
  | '.' :: r =>
    match r with
    | c :: r2 =>
      if isDigitC c then
        some ('.' :: c :: (spanP isDigitC r2).1, (spanP isDigitC r2).2)
      else none
    | [] => none
  | s => some ([], s)

/-- JSON number grammar, optional exponent `([eE][+-]?[0-9]+)?`. -/
def jExpPart : Str → Option (Str × Str)
  | [] => some ([], [])
  | c :: r =>
    if c = 'e' ∨ c = 'E' then
      match r with
      | [] => none
      | t :: r2 =>
        if t = '+' ∨ t = '-' then
          match r2 with
          | [] => none
          | d :: r3 =>
            if isDigitC d then
              some (c :: t :: d :: (spanP isDigitC r3).1, (spanP isDigitC r3).2)
            else none
        else if isDigitC t then
          some (c :: t :: (spanP isDigitC r2).1, (spanP isDigitC r2).2)
        else none
    else some ([], c :: r)

def parseJNumber (s : Str) : Option (JVal × Str) :=
  let sg : Str × Str :=
    match s with
    | '-' :: r => (['-'], r)
    | _ => ([], s)
  match jIntPart sg.2 with
  | none => none
  | some (ip, r1) =>
    match jFracPart r1 with
    | none => none
    | some (fp, r2) =>
      match jExpPart r2 with
      | none => none
      | some (ep, r3) => some (.num (sg.1 ++ ip ++ fp ++ ep), r3)

mutual
/-- Recursive-descent `JSON.parse` for one value (leading whitespace
allowed), fueled; one fuel unit per nested value/member/element step. -/
def parseValF : Nat → Str → Option (JVal × Str)
  | 0, _ => none
  | n+1, s =>
    match skipJsonWs s with
    | '\x7b' :: r =>
      match skipJsonWs r with
      | '\x7d' :: r2 => some (.obj .nil, r2)
      | _ =>
        match parseMembersF n .nil r with
        | some (kvs, r2) => some (.obj kvs, r2)
        | none => none
    | '[' :: r =>
      match skipJsonWs r with
      | ']' :: r2 => some (.arr .nil, r2)
      | _ =>
        match parseElemsF n .nil r with
        | some (xs, r2) => some (.arr xs, r2)
        | none => none
    | '"' :: r =>
      match parseJString r with
      | some (cs, r2) => some (.str cs, r2)
      | none => none
    | 't' :: 'r' :: 'u' :: 'e' :: r => some (.bool true, r)
    | 'f' :: 'a' :: 'l' :: 's' :: 'e' :: r => some (.bool false, r)
    | 'n' :: 'u' :: 'l' :: 'l' :: r => some (.null, r)
    | s2 => parseJNumber s2
/-- Object members after `{`, accumulating assignments left to right. -/
def parseMembersF : Nat → JObj → Str → Option (JObj × Str)
  | 0, _, _ => none
  | n+1, acc, s =>
    match skipJsonWs s with
    | '"' :: r =>
      match parseJString r with
      | none => none
      | some (k, r2) =>
        match skipJsonWs r2 with
        | ':' :: r3 =>
          match parseValF n r3 with
          | none => none
          | some (v, r4) =>
            match skipJsonWs r4 with
            | ',' :: r5 => parseMembersF n (jsAssign k v acc) r5
            | '\x7d' :: r5 => some (jsAssign k v acc, r5)
            | _ => none
        | _ => none
    | _ => none
/-- Array elements after `[`. -/
def parseElemsF : Nat → JArr → Str → Option (JArr × Str)
  | 0, _, _ => none
  | n+1, acc, s =>
    match parseValF n s with
    | none => none
    | some (v, r) =>
      match skipJsonWs r with
      | ',' :: r2 => parseElemsF n (arrSnoc acc v) r2
      | ']' :: r2 => some (arrSnoc acc v, r2)
      | _ => none
end

/-- `JSON.parse`: a single value, with only whitespace allowed after it;
`none` models a thrown `SyntaxError`.  Each fuel unit is paid for by at
least one consumed character, so `length + 1` fuel never runs out. -/
def jsonParse (s : Str) : Option JVal :=
  match parseValF (s.length + 1) s with
  | some (v, r) => if skipJsonWs r = [] then some v else none
  | none => none

/-! ### Object.entries and the body normalizer (webhook.js lines 53-62) -/
def jobjToList : JObj → List (Str × JVal)
  | .nil => []
  | .cons k v tl => (k, v) :: jobjToList tl

def natToDecAux : Nat → Nat → Str
  | 0, _ => []
  | f+1, n =>
    if n < 10 then [Char.ofNat (48 + n)]
    else natToDecAux f (n / 10) ++ [Char.ofNat (48 + n % 10)]

def natToDec (n : Nat) : Str := natToDecAux (n + 1) n

def jarrEntriesFrom : Nat → JArr → List (Str × JVal)
  | _, .nil => []
  | i, .cons v tl => (natToDec i, v) :: jarrEntriesFrom (i + 1) tl

def strEntriesFrom : Nat → Str → List (Str × JVal)
  | _, [] => []
  | i, c :: cs => (natToDec i, JVal.str [c]) :: strEntriesFrom (i + 1) cs

/-- `Object.entries(v)` on a parsed JSON value: own enumerable string-keyed
properties.  Objects list their stored (JS-ordered) entries, arrays and
strings their indexed elements, number/boolean primitives have none, and
`null` throws a TypeError (`none`). -/
def jsEntries : JVal → Option (List (Str × JVal))
  | .null => none
  | .obj kvs => some (jobjToList kvs)
  | .arr xs => some (jarrEntriesFrom 0 xs)
  | .str cs => some (strEntriesFrom 0 cs)
  | .num _ => some []
  | .bool _ => some []

/-- The interpolation `${typeof v === "object" ? JSON.stringify(v) : String(v)}`. -/
def jsToString : JVal → Str
  | .str cs => cs
  | .num lx => lx
  | .bool true => "true".data
  | .bool false => "false".data
  | .null => "null".data
  | .arr xs => jstr (.arr xs)
  | .obj kvs => jstr (.obj kvs)

def joinLines : List Str → Str
  | [] => []
  | [l] => l
  | l :: l2 :: ls => l ++ '\n' :: joinLines (l2 :: ls)

def entryLine (kv : Str × JVal) : Str := kv.1 ++ ':' :: ' ' :: jsToString kv.2

/-- webhook.js lines 53-62: try `JSON.parse`; on success render
`Object.entries` as `k: v` lines joined by newlines; any exception
(parse failure, or `Object.entries(null)`) falls back to the raw text. -/
def stringifyAlertBody (raw : Str) : Str :=
  match jsonParse raw with
  | none => raw
  | some v =>
    match jsEntries v with
    | none => raw
    | some es => joinLines (es.map entryLine)

def jsHasKey (k : Str) : JObj → Bool
  | .nil => false
  | .cons k2 _ tl => k = k2 || jsHasKey k tl

def objSnoc : JObj → Str → JVal → JObj
  | .nil, k, v => .cons k v .nil
  | .cons k2 v2 tl, k, v => .cons k2 v2 (objSnoc tl k v)

def c6Raw : Str := "\x7b\"a\":1,\"b\":\"x\"\x7d".data

/-- The wecom relay envelope `{msgtype:"markdown",markdown:{content:text}}`
built by the handler (webhook.js line 301). -/
def wecomEnvelope (text : Str) : JVal :=
  .obj (.cons "msgtype".data (.str "markdown".data)
    (.cons "markdown".data (.obj (.cons "content".data (.str text) .nil)) .nil))

/-- `cfg.type === "wecom"` (webhook.js line 292). -/
def isWecomCfg (cfgType : Option Str) : Bool := cfgType = some "wecom".data

/-- The forwarded body (webhook.js lines 300-302). -/
def relayBody (cfgType : Option Str) (finalText : Str) : Str :=
  if isWecomCfg cfgType then jstr (wecomEnvelope finalText) else finalText

/-- The forwarded Content-Type header (webhook.js lines 297-299). -/
def relayContentType (cfgType : Option Str) : Str :=
  if isWecomCfg cfgType then "application/json".data
  else "text/plain; charset=utf-8".data

/-! ### Signal parsing and display beautification (webhook.js lines 162-266)

JS regexes over the line are embedded as deterministic position matchers
(`m...` functions try a match at the current position) scanned by
`findFirst` over successive start positions, which is exactly the
first-match semantics of `String.prototype.match` for these patterns: the
character classes and literals involved admit no backtracking, except the
provider-name alternation, which is resolved in the regex's order.
`String.prototype.toLowerCase` is modelled on ASCII letters; the pattern
alphabets involved contain only ASCII letters and CJK characters that
lower-case to themselves. -/
def lowerA (c : Char) : Char :=
  if 65 ≤ c.toNat ∧ c.toNat ≤ 90 then Char.ofNat (c.toNat + 32) else c

def containsAnyOf (pats : List Str) (t : Str) : Bool :=
  pats.any (fun p => containsSub p t)

/-- webhook.js lines 162-168. -/
def detectDirection (s : Option Str) : Str :=
  let t := (match s with | none => [] | some x => x).map lowerA
  if containsAnyOf ["空信号".data, "做空".data, "空单".data, "卖信号".data,
      "short".data, "sell".data, "调仓空".data, "追击空".data] t then "short".data
  else if containsAnyOf ["多信号".data, "做多".data, "多单".data, "买信号".data,
      "long".data, "buy".data, "调仓多".data, "追击多".data] t then "long".data
  else if containsSub "止损".data t then "stop".data
  else "neutral".data

/-- webhook.js lines 169-174. -/
def icon (d : Str) : Str :=
  if d = "short".data then "🔴 空".data
  else if d = "long".data then "🟢 多".data
  else if d = "stop".data then "⚠️ 止损".data
  else "🟦 中性".data

/-- webhook.js lines 175-177: `s.replace(/^[\-•\*]\s+/, "").trim()`. -/
def stripBullet (s : Str) : Str :=
  trimJS (match s with
    | [] => []
    | c :: cs =>
      if c = '-' ∨ c = '•' ∨ c = '*' then
        match cs with
        | [] => c :: cs
        | d :: _ => if wsJS d then (spanP wsJS cs).2 else c :: cs
      else c :: cs)

/-- A label, optional whitespace, then an ASCII or full-width colon;
returns what follows the colon. -/
def afterLabel (lbl : Str) (s : Str) : Option Str :=
  match dropLit lbl s with
  | none => none
  | some r1 =>
    match (spanP wsJS r1).2 with
    | c :: r3 => if isColonC c then some r3 else none
    | [] => none

/-- Scan successive start positions for the first match. -/
def findFirstF {α : Type} (m : Str → Option α) : Nat → Str → Option α
  | 0, _ => none
  | n+1, s =>
    match m s with
    | some a => some a
    | none =>
      match s with
      | [] => none
      | _ :: cs => findFirstF m n cs

def findFirst {α : Type} (m : Str → Option α) (s : Str) : Option α :=
  findFirstF m (s.length + 1) s

def notStockStop (c : Char) : Bool :=
  !(wsJS c || c = ',' || c = '，' || c = '!' || c = '！')

/-- `/标的\s*[:：]\s*([^\s,，!！]+)/`, group 1, at one position. -/
def mStock (s : Str) : Option Str :=
  match afterLabel "标的".data s with
  | none => none
  | some r =>
    match (spanP notStockStop ((spanP wsJS r).2)).1 with
    | [] => none
    | c :: cs => some (c :: cs)

/-- `/周期\s*[:：]\s*([0-9]+)/`, group 1, at one position. -/
def mPeriod (s : Str) : Option Str :=
  match afterLabel "周期".data s with
  | none => none
  | some r =>
    match (spanP isDigitC ((spanP wsJS r).2)).1 with
    | [] => none
    | c :: cs => some (c :: cs)

def priceNum (r : Str) : Option Str :=
  let r2 := (spanP wsJS r).2
  match (spanP isDigitC r2).1, (spanP isDigitC r2).2 with
  | [], _ => none
  | c :: cs, rest =>
    match rest with
    | '.' :: r3 =>
      match (spanP isDigitC r3).1 with
      | [] => some (c :: cs)
      | d :: ds => some ((c :: cs) ++ '.' :: d :: ds)
    | _ => some (c :: cs)

/-- `/(当前价格|价格)\s*[:：]\s*([0-9]+(?:\.[0-9]+)?)/`, group 2, at one
position; the alternation is tried in the regex's order. -/
def mPrice (s : Str) : Option Str :=
  match afterLabel "当前价格".data s with
  | some r => priceNum r
  | none =>
    match afterLabel "价格".data s with
    | some r => priceNum r
    | none => none

/-- `/指标\s*[:：]\s*([^\s,，!！]+)/`, group 1, at one position. -/
def mIndicator (s : Str) : Option Str :=
  match afterLabel "指标".data s with
  | none => none
  | some r =>
    match (spanP notStockStop ((spanP wsJS r).2)).1 with
    | [] => none
    | c :: cs => some (c :: cs)

def notSignalStop (c : Char) : Bool :=
  !(c = ',' || c = '，' || c = '!' || c = '！')

/-- `/信号\s*[:：]\s*([^,，!！]+)/`, group 1, at one position. -/
def mSignalEx (s : Str) : Option Str :=
  match afterLabel "信号".data s with
  | none => none
  | some r =>
    match (spanP notSignalStop ((spanP wsJS r).2)).1 with
    | [] => none
    | c :: cs => some (c :: cs)

/-- `raw.search(/周期\s*[:：]/)` then `slice`: the suffix at the first
matching position. -/
def findSuffixF (m : Str → Option Str) : Nat → Str → Option Str
  | 0, _ => none
  | n+1, s =>
    match m s with
    | some _ => some s
    | none =>
      match s with
      | [] => none
      | _ :: cs => findSuffixF m n cs

def findSuffix (m : Str → Option Str) (s : Str) : Option Str :=
  findSuffixF m (s.length + 1) s

/-- `indexOf(",")` then `slice(commaIdx + 1)`. -/
def afterCommaAux : Str → Option Str
  | [] => none
  | c :: cs => if c = ',' then some cs else afterCommaAux cs

/-- webhook.js lines 227-233: the free-text segment base. -/
def segStart (raw : Str) : Str :=
  match findSuffix (afterLabel "周期".data) raw with
  | none => raw
  | some ap =>
    match afterCommaAux ap with
    | some tail => tail
    | none => ap

/-- JS `.` (no s flag): any character but a line terminator. -/
def reDot (c : Char) : Bool :=
  !(c = '\n' || c = '\r' || c = ' ' || c = ' ')

/-- `s.replace(/<pre>.*$/, "")` without the m flag: at the leftmost
position where `pre` matches and only non-terminator characters remain,
everything from that position on is removed. -/
def cutTailF (pre : Str → Option Str) : Nat → Str → Str
  | 0, s => s
  | n+1, s =>
    match s with
    | [] => []
    | c :: cs =>
      match pre s with
      | some r => if r.all reDot then [] else c :: cutTailF pre n cs
      | none => c :: cutTailF pre n cs

def cutTail (pre : Str → Option Str) (s : Str) : Str := cutTailF pre s.length s

def prePrice (s : Str) : Option Str :=
  match afterLabel "当前价格".data s with
  | some r => some r
  | none => afterLabel "价格".data s

/-- `-?\s*标的\s*[:：]` (a whole-pattern leading slash is omitted here)
at one position. -/
def preRetarget (s : Str) : Option Str :=
  match s with
  | '-' :: r => afterLabel "标的".data ((spanP wsJS r).2)
  | _ => afterLabel "标的".data ((spanP wsJS s).2)

def leadClass (c : Char) : Bool := c = '，' || c = ',' || wsJS c || c = '-'

def trailClass (c : Char) : Bool :=
  c = '，' || c = ',' || c = '!' || wsJS c || c = '-'

def dropTrailing (p : Char → Bool) (s : Str) : Str :=
  ((spanP p s.reverse).2).reverse

structure ParsedLine where
  stock : Option Str
  period : Option Str
  price : Option Str
  signal : Option Str
  indicator : Option Str
  direction : Str

/-- webhook.js lines 213-246. -/
def parseLine (line : Str) : ParsedLine :=
  let raw := trimJS line
  let stock := findFirst mStock raw
  let period := findFirst mPeriod raw
  let price := findFirst mPrice raw
  let indicator := findFirst mIndicator raw
  let signal0 := findFirst mSignalEx raw
  let signal :=
    match signal0 with
    | some sg => some sg
    | none =>
      let seg1 := cutTail prePrice (segStart raw)
      let seg2 := cutTail (afterLabel "指标".data) seg1
      let seg3 := (spanP leadClass seg2).2
      let seg4 := dropTrailing trailClass seg3
      let seg5 := cutTail preRetarget seg4
      let seg6 := trimJS seg5
      if seg6 = [] then none else some seg6
  { stock := stock, period := period, price := price, signal := signal,
    indicator := indicator, direction := detectDirection signal }

def splitLines (t : Str) : List Str := splitOnChar '\n' t

def isSignalDetail (l : Str) : Bool := l = "信号详情".data

/-- `/^[-\s]*<lbl>\s*[:：]/`. -/
def kvHead (lbl : Str) (l : Str) : Bool :=
  (afterLabel lbl ((spanP (fun c => c = '-' || wsJS c) l).2)).isSome

/-- `/^(标的|周期|价格|当前价格|信号|指标)\s*[:：]/`. -/
def kvFieldTest (l : Str) : Bool :=
  (afterLabel "标的".data l).isSome || (afterLabel "周期".data l).isSome ||
  (afterLabel "价格".data l).isSome || (afterLabel "当前价格".data l).isSome ||
  (afterLabel "信号".data l).isSome || (afterLabel "指标".data l).isSome

def kvFields (lines0 : List Str) : List Str :=
  (lines0.map stripBullet).filter (fun l => !(isSignalDetail l) && kvFieldTest l)

def joinSep (sep : Str) : List Str → Str
  | [] => []
  | [l] => l
  | l :: l2 :: ls => l ++ sep ++ joinSep sep (l2 :: ls)

/-- The block accumulator of webhook.js lines 201-209 (`buf` kept
reversed); lines before the first `标的:` line are dropped. -/
def sagBlocks : List Str → List Str → List (List Str)
  | [], buf => if buf = [] then [] else [buf.reverse]
  | l :: ls, buf =>
    if (afterLabel "标的".data l).isSome then
      if buf = [] then sagBlocks ls [l] else buf.reverse :: sagBlocks ls [l]
    else
      if buf = [] then sagBlocks ls [] else sagBlocks ls (l :: buf)

/-- webhook.js lines 180-211. -/
def splitAlertsGeneric (text : Str) : List Str :=
  let t := trimJS text
  if t = [] then []
  else
    let lines0 := ((splitLines t).map trimJS).filter (fun l => !(l = []))
    let isKvCard := isSignalDetail (lines0.getD 0 []) ||
      (decide (3 ≤ lines0.length) && kvHead "标的".data (lines0.getD 0 []) &&
        kvHead "周期".data (lines0.getD 1 []))
    if isKvCard then
      let fields := kvFields lines0
      match fields with
      | [] => [t]
      | _ => [joinSep ", ".data fields]
    else
      let lines := ((splitLines t).map stripBullet).filter (fun l => !(l = []))
      match (sagBlocks lines []).map (joinSep ", ".data) with
      | [] => [stripBullet t]
      | b :: bs => b :: bs

def fmtParts (p : ParsedLine) : List Str :=
  (icon p.direction ++ "｜".data ++ p.stock.getD []) ::
  ((match p.period with | some x => ["周期".data ++ x] | none => []) ++
   (match p.price with | some x => ["价格 ".data ++ x] | none => []) ++
   (match p.signal with | some x => [x] | none => []) ++
   (match p.indicator with | some x => ["指标 ".data ++ x] | none => []))

/-- webhook.js lines 256-263. -/
def fmtLine (p : ParsedLine) : Str :=
  let parts := fmtParts p
  "- ".data ++ parts.headD [] ++
    (if 1 < parts.length then " · ".data ++ joinSep " · ".data parts.tail
     else [])

/-- webhook.js lines 249-266: only blocks with a stock and a signal or
price are kept; if none qualify the content passes through unchanged. -/
def beautifyAlerts (content : Str) : Str :=
  let chunks := splitAlertsGeneric content
  let parsed := chunks.map parseLine
  let valid := parsed.filter
    (fun p => p.stock.isSome && (p.signal.isSome || p.price.isSome))
  match valid with
  | [] => content
  | v :: vs => joinSep "\n".data ((v :: vs).map fmtLine)

/-! ### The HTTP handler (webhook.js lines 271-320)

The handler is modelled as a function of the webhook map, the provider
network, and the forward request's outcome.  A `HandlerResult` keeps the
response status, the `error` field of the JSON response body (`none` for
the 200 `{success:true}` response), and the relay call if one was made.
The model's internal faults are an oversized body and a thrown forward
fetch; both reach the catch-all and answer 500 with
`error: "Internal Server Error"`. -/
inductive FwdOutcome : Type
  | err
  | notOk (txt : Str)
  | ok

structure Cfg where
  url : Str
  ctype : Option Str

structure WebReq where
  method : Str
  key : Option Str
  chunks : List Str

structure RelayCall where
  url : Str
  contentType : Str
  body : Str

structure HandlerResult where
  status : Nat
  detail : Option Str
  relay : Option RelayCall

/-- `const cfg = key ? webhookMap[key] : undefined` with the `!cfg?.url`
guard folded in: an absent or empty key, an unknown key, or a config
without a usable url all yield `none` (line 276-278). -/
def effCfg (wmap : Str → Option Cfg) (key : Option Str) : Option Cfg :=
  match key with
  | none => none
  | some k =>
    if k = [] then none
    else
      match wmap k with
      | none => none
      | some c => if c.url = [] then none else some c

def relayResult (call : RelayCall) : FwdOutcome → HandlerResult
  | .err => ⟨500, some "Internal Server Error".data, some call⟩
  | .notOk txt => ⟨502, some ("Forward failed: ".data ++ txt), some call⟩
  | .ok => ⟨200, none, some call⟩

def mkRelayCall (cfg : Cfg) (finalText : Str) : RelayCall :=
  ⟨cfg.url, relayContentType cfg.ctype, relayBody cfg.ctype finalText⟩

/-- Lines 282-289: normalize, mark, resolve, beautify. -/
def pipelineFinalText (net : Str → FetchOutcome) (raw : Str) : Str :=
  beautifyAlerts (resolveTargets (getChineseStockName net)
    (replaceTargets (stringifyAlertBody raw)))

def handler (wmap : Str → Option Cfg) (net : Str → FetchOutcome)
    (fwd : RelayCall → FwdOutcome) (req : WebReq) : HandlerResult :=
  if ¬ req.method = "POST".data then
    ⟨405, some "Method Not Allowed".data, none⟩
  else
    match effCfg wmap req.key with
    | none => ⟨404, some "Key not found".data, none⟩
    | some cfg =>
      match (getRawBody req.chunks).outcome with
      | .error _ => ⟨500, some "Internal Server Error".data, none⟩
      | .ok raw =>
        relayResult (mkRelayCall cfg (pipelineFinalText net raw))
          (fwd (mkRelayCall cfg (pipelineFinalText net raw)))

def c8Wmap (k : Str) : Option Cfg :=
  if k = "k1".data then some ⟨"https://dst.example/hook".data, none⟩ else none

def c8Fwd (_c : RelayCall) : FwdOutcome := .notOk "boom".data

def c8Req : WebReq := ⟨"POST".data, some "k1".data, ["hi".data]⟩

def c10Chunks : List Str := [List.replicate 1048577 'a']

def c1Msg : Str := "标的: 600000, 信号: 买信号\n标的: 000001".data

/-! ### The part_001 variant's classifier and the part_000 variant's handler -/

/-- part_000 lines 12-19: its getRawBody concatenates all chunks with no
size limit. -/
def p0RawBody (chunks : List Str) : Str := chunks.flatten

/-- part_000 lines 74-94 as a plain result (the traced embedding
`part000_getChineseStockNameT` also keeps the requested URLs). -/
def part000GetName (net : Str → FetchOutcome) (code : Str) : Option Str :=
  (part000_getChineseStockNameT net code).1

def p0HasLF (s : Str) : Bool := s.any (fun c => c = '\n')

/-- part_000 line 109: `^标的\s*[:：]\s*(\d{5,6})\s*[,，]?\s*(.*)$` at
position 0 (anchored, no m flag): the greedy runs are deterministic, the
digit group takes at most six digits, and `(.*)$` succeeds exactly when
what remains holds no line terminator; returns (code group, remainder
group). -/
def p0SingleLine (s : Str) : Option (Str × Str) :=
  match dropLit "标的".data s with
  | none => none
  | some r1 =>
    match (spanP wsJS r1).2 with
    | [] => none
    | c :: r2 =>
      if isColonC c then
        let r3 := (spanP wsJS r2).2
        let ds := (spanP isDigitC r3).1
        let r4 := (spanP isDigitC r3).2
        if 5 ≤ ds.length then
          let rest1 := (spanP wsJS (ds.drop 6 ++ r4)).2
          let rest2 :=
            match rest1 with
            | c2 :: r5 => if c2 = ',' ∨ c2 = '，' then r5 else rest1
            | [] => rest1
          let rem := (spanP wsJS rest2).2
          if rem.all reDot then some (ds.take 6, rem) else none
        else none
      else none

/-- `[（(]\s*\d{5,6}\s*[)）]` at one position: the digit run must be of
length 5 or 6 exactly (a longer run leaves digits before the closing
parenthesis under every split the engine tries). -/
def p0ParenAt (r : Str) : Bool :=
  match r with
  | [] => false
  | c :: r1 =>
    if c = '(' ∨ c = '（' then
      let r2 := (spanP wsJS r1).2
      let ds := (spanP isDigitC r2).1
      let r3 := (spanP isDigitC r2).2
      if 5 ≤ ds.length ∧ ds.length ≤ 6 then
        match (spanP wsJS r3).2 with
        | c2 :: _ => decide (c2 = ')' ∨ c2 = '）')
        | [] => false
      else false
    else false

/-- The lazy `.*?` before the parenthesized code: try the paren group at
each position, advancing only across characters the regex dot accepts. -/
def p0ScanParen : Nat → Str → Bool
  | 0, _ => false
  | n+1, s =>
    if p0ParenAt s then true
    else
      match s with
      | [] => false
      | c :: cs => if reDot c then p0ScanParen n cs else false

def p0FmtAt (s : Str) : Option Unit :=
  match afterLabel "标的".data s with
  | none => none
  | some r => if p0ScanParen (r.length + 1) r then some () else none

/-- part_000 line 141: `标的\s*[:：].*?[（(]\s*\d{5,6}\s*[)）]` matched
anywhere. -/
def p0AlreadyFormatted (s : Str) : Bool := (findFirst p0FmtAt s).isSome

/-- part_000 line 146: `(标的\s*[:：]\s*\d{5,6})` at one position:
returns (whole match, the prefix before the code, code).  Line 155 then
re-finds the code inside the match; the prefix holds no digit, so that is
the same code. -/
def p0CodeAt (s : Str) : Option (Str × Str × Str) :=
  match dropLit "标的".data s with
  | none => none
  | some r1 =>
    let w1 := (spanP wsJS r1).1
    match (spanP wsJS r1).2 with
    | [] => none
    | c :: r2 =>
      if isColonC c then
        let w2 := (spanP wsJS r2).1
        let r3 := (spanP wsJS r2).2
        let ds := (spanP isDigitC r3).1
        if 5 ≤ ds.length then
          let code := ds.take 6
          let pre := "标的".data ++ w1 ++ c :: w2
          some (pre ++ code, pre, code)
        else none
      else none

/-- JS `String.prototype.replace` with a string pattern: replace the
first literal occurrence (dollar patterns in the replacement are not
modelled; the replacements used here are resolved names in parentheses). -/
def replaceFirstF (pat rep : Str) : Nat → Str → Str
  | 0, s => s
  | n+1, s =>
    match s with
    | [] => []
    | c :: cs =>
      match dropLit pat s with
      | some r => rep ++ r
      | none => c :: replaceFirstF pat rep n cs

def replaceFirst (pat rep : Str) (s : Str) : Str :=
  replaceFirstF pat rep s.length s

/-- part_000 lines 138-163: the multi-line fallback enhancer.  The first
literal occurrence of the matched string is its first regex match, since
every literal occurrence is itself a regex match. -/
def p0Multi (net : Str → FetchOutcome) (msg : Str) : Str :=
  if p0AlreadyFormatted msg then msg
  else
    match findFirst p0CodeAt msg with
    | none => msg
    | some (matched, pre, code) =>
      match part000GetName net code with
      | some nm =>
        replaceFirst matched
          (trimJS pre ++ ' ' :: (nm ++ '（' :: (code ++ ['）']))) msg
      | none => msg

/-- part_000 lines 97-167 (processMessage), without the debug report. -/
def p0ProcessMessage (net : Str → FetchOutcome) (body : Str) : Str :=
  match p0SingleLine body with
  | some (code, rem) =>
    if p0HasLF body then p0Multi net body
    else
      let rem2 := (spanP (fun c2 => decide (c2 = ',' ∨ c2 = '，') || wsJS c2) rem).2
      let line :=
        match part000GetName net code with
        | some nm => "标的:".data ++ nm ++ '(' :: (code ++ [')'])
        | none => "标的:(".data ++ code ++ [')']
      line ++ '\n' :: rem2
  | none => p0Multi net body

def p0Marker : Str := "[PROXY V2025-10-14-FIXED] ".data

/-- part_000 lines 191-252: its handler.  A missing or empty key answers
400; an unknown key or missing url answers 404; the body is read with no
size limit, normalized by the same Object.entries renderer as webhook.js
(its lines 196-203, identical semantics), trimmed (line 204), processed,
and prefixed with the confirmation marker; and — unlike webhook.js — a
non-2xx forward response is only logged: lines 241-252 answer 200
success regardless, while a thrown forward fetch reaches the catch-all
500 with no destination detail.  Modelled for requests without
`debug=true`, whose only effect is appending a report to the forwarded
text. -/
def part000Handler (wmap : Str → Option Cfg) (net : Str → FetchOutcome)
    (fwd : RelayCall → FwdOutcome) (req : WebReq) : HandlerResult :=
  if ¬ req.method = "POST".data then
    ⟨405, some "Method Not Allowed".data, none⟩
  else
    match req.key with
    | none => ⟨400, some "Missing 'key' parameter.".data, none⟩
    | some k =>
      if k = [] then ⟨400, some "Missing 'key' parameter.".data, none⟩
      else
        match wmap k with
        | none => ⟨404, some ("Proxy key '".data ++ k ++
            "' not found or misconfigured.".data), none⟩
        | some cfg =>
          if cfg.url = [] then
            ⟨404, some ("Proxy key '".data ++ k ++
              "' not found or misconfigured.".data), none⟩
          else
            let trimmed := trimJS (stringifyAlertBody (p0RawBody req.chunks))
            let msg := p0Marker ++ p0ProcessMessage net trimmed
            let destType : Str :=
              match cfg.ctype with
              | none => "raw".data
              | some t => if t = [] then "raw".data else t
            let call : RelayCall :=
              if destType = "wecom".data then
                ⟨cfg.url, "application/json".data, jstr (wecomEnvelope msg)⟩
              else
                ⟨cfg.url, "text/plain; charset=utf-8".data, msg⟩
            match fwd call with
            | .err => ⟨500, some "Internal Server Error".data, some call⟩
            | .notOk _ => ⟨200, none, some call⟩
            | .ok => ⟨200, none, some call⟩

/-! ## Properties, claim theorems, witnesses and counterexamples -/

theorem spanP_append (p : Char → Bool) (s : Str) :
    (spanP p s).1 ++ (spanP p s).2 = s := by
  induction s with
  | nil => rfl
  | cons c cs ih =>
    cases h : p c <;> simp [spanP, h, ih]

theorem spanP_mem (p : Char → Bool) (s : Str) :
    ∀ c ∈ (spanP p s).1, p c = true := by
  induction s with
  | nil => intro c h; simp [spanP] at h
  | cons x xs ih =>
    intro c h
    cases hx : p x
    · simp [spanP, hx] at h
    · simp [spanP, hx] at h
      rcases h with h | h
      · rw [h]; exact hx
      · exact ih c h

theorem spanP_rest (p : Char → Bool) (s : Str) :
    ∀ x xs, (spanP p s).2 = x :: xs → p x = false := by
  induction s with
  | nil => intro x xs h; simp [spanP] at h
  | cons c cs ih =>
    intro x xs h
    cases hc : p c
    · simp [spanP, hc] at h
      rw [← h.1]
      exact hc
    · simp [spanP, hc] at h
      exact ih x xs h

theorem spanP_build (p : Char → Bool) (w b : Str)
    (hw : ∀ c ∈ w, p c = true)
    (hb : ∀ x xs, b = x :: xs → p x = false) :
    spanP p (w ++ b) = (w, b) := by
  induction w with
  | nil =>
    cases b with
    | nil => rfl
    | cons x xs => simp [spanP, hb x xs rfl]
  | cons c cs ih =>
    have hc : p c = true := hw c (by simp)
    have ih2 := ih (fun d hd => hw d (by simp [hd]))
    simp [spanP, hc, ih2]

theorem digitsTake_append (n : Nat) (s : Str) :
    (digitsTake n s).1 ++ (digitsTake n s).2 = s := by
  induction n generalizing s with
  | zero => rfl
  | succ m ih =>
    cases s with
    | nil => rfl
    | cons c cs =>
      cases h : isDigitC c <;> simp [digitsTake, h, ih]

theorem digitsTake_mem (n : Nat) (s : Str) :
    ∀ c ∈ (digitsTake n s).1, isDigitC c = true := by
  induction n generalizing s with
  | zero => intro c h; simp [digitsTake] at h
  | succ m ih =>
    cases s with
    | nil => intro c h; simp [digitsTake] at h
    | cons x xs =>
      intro c h
      cases hx : isDigitC x
      · simp [digitsTake, hx] at h
      · simp [digitsTake, hx] at h
        rcases h with h | h
        · rw [h]; exact hx
        · exact ih xs c h

theorem digitsTake_len (n : Nat) (s : Str) :
    (digitsTake n s).1.length ≤ n := by
  induction n generalizing s with
  | zero => simp [digitsTake]
  | succ m ih =>
    cases s with
    | nil => simp [digitsTake]
    | cons c cs =>
      cases h : isDigitC c
      · simp [digitsTake, h]
      · simp [digitsTake, h]
        exact ih cs

theorem digitsTake_rest (n : Nat) (s : Str)
    (h : (digitsTake n s).1.length < n) :
    ∀ x xs, (digitsTake n s).2 = x :: xs → isDigitC x = false := by
  induction n generalizing s with
  | zero => omega
  | succ m ih =>
    cases s with
    | nil => intro x xs hx; simp [digitsTake] at hx
    | cons c cs =>
      intro x xs hx
      cases hc : isDigitC c
      · simp [digitsTake, hc] at hx
        rw [← hx.1]; exact hc
      · simp [digitsTake, hc] at hx h
        exact ih cs h x xs hx

theorem digitsTake_build (n : Nat) (d b : Str)
    (hd : ∀ c ∈ d, isDigitC c = true) (hlen : d.length ≤ n)
    (hb : d.length = n ∨ ∀ x xs, b = x :: xs → isDigitC x = false) :
    digitsTake n (d ++ b) = (d, b) := by
  induction d generalizing n with
  | nil =>
    rcases hb with h | h
    · simp at h; subst h; rfl
    · cases b with
      | nil => cases n <;> rfl
      | cons x xs =>
        cases n with
        | zero => rfl
        | succ m => simp [digitsTake, h x xs rfl]
  | cons c cs ih =>
    have hc : isDigitC c = true := hd c (by simp)
    cases n with
    | zero => simp at hlen
    | succ m =>
      have hm : cs.length ≤ m := by simpa using hlen
      have hb2 : cs.length = m ∨ ∀ x xs, b = x :: xs → isDigitC x = false := by
        rcases hb with h | h
        · left; simpa using h
        · right; exact h
      have := ih m (fun e he => hd e (by simp [he])) hm hb2
      simp [digitsTake, hc, this]

theorem dropLit_some (p s r : Str) (h : dropLit p s = some r) : s = p ++ r := by
  induction p generalizing s with
  | nil => simp [dropLit] at h; simp [h]
  | cons x xs ih =>
    cases s with
    | nil => simp [dropLit] at h
    | cons c cs =>
      by_cases hc : c = x
      · subst hc
        simp [dropLit] at h
        simp [ih cs h]
      · simp [dropLit, hc] at h

theorem dropLit_build (p r : Str) : dropLit p (p ++ r) = some r := by
  induction p with
  | nil => rfl
  | cons x xs ih => simp [dropLit, ih]

theorem colon_not_ws (c : Char) (h : isColonC c = true) : wsJS c = false := by
  simp [isColonC] at h
  simp [wsJS]
  omega

theorem digit_not_ws (c : Char) (h : isDigitC c = true) : wsJS c = false := by
  simp [isDigitC] at h
  simp [wsJS]
  omega

theorem colon_not_digit (c : Char) (h : isColonC c = true) : isDigitC c = false := by
  simp [isColonC] at h
  simp [isDigitC]
  omega

theorem tryLabel_some {s g1 ds r : Str} (h : tryLabel s = some (g1, ds, r)) :
    s = g1 ++ ds ++ r ∧
    (∃ w1 col w2, g1 = '标' :: '的' :: (w1 ++ col :: w2) ∧
      (∀ c ∈ w1, wsJS c = true) ∧ isColonC col = true ∧
      (∀ c ∈ w2, wsJS c = true)) ∧
    ds ≠ [] ∧ ds.length ≤ 6 ∧ (∀ c ∈ ds, isDigitC c = true) ∧
    (ds.length = 6 ∨ ∀ x xs, r = x :: xs → isDigitC x = false) := by
  cases s with
  | nil => simp [tryLabel] at h
  | cons c0 s0 =>
    cases s0 with
    | nil => simp [tryLabel] at h
    | cons c1 s1 =>
      by_cases h01 : c0 = '标' ∧ c1 = '的'
      · obtain ⟨h0, h1⟩ := h01
        subst h0; subst h1
        rw [tryLabel] at h
        simp only [if_pos (And.intro rfl rfl)] at h
        cases hsp : (spanP wsJS s1).2 with
        | nil => rw [hsp] at h; simp at h
        | cons col s3 =>
          rw [hsp] at h
          by_cases hcol : isColonC col = true
          · simp only [hcol, if_pos] at h
            by_cases hds : (digitsTake 6 (spanP wsJS s3).2).1 = []
            · simp [hds] at h
            · simp only [hds, if_neg, ite_false] at h
              have hinj := Option.some.inj h
              have hg1 : (('标' : Char) :: '的' ::
                  ((spanP wsJS s1).1 ++ col :: (spanP wsJS s3).1)) = g1 :=
                congrArg (fun t => t.1) hinj
              have hds2 : (digitsTake 6 (spanP wsJS s3).2).1 = ds :=
                congrArg (fun t => t.2.1) hinj
              have hr : (digitsTake 6 (spanP wsJS s3).2).2 = r :=
                congrArg (fun t => t.2.2) hinj
              refine ⟨?_, ?_, ?_, ?_, ?_, ?_⟩
              · have e1 : (spanP wsJS s1).1 ++ (spanP wsJS s1).2 = s1 :=
                  spanP_append wsJS s1
                have e2 : (spanP wsJS s3).1 ++ (spanP wsJS s3).2 = s3 :=
                  spanP_append wsJS s3
                have e3 : (digitsTake 6 (spanP wsJS s3).2).1 ++
                    (digitsTake 6 (spanP wsJS s3).2).2 = (spanP wsJS s3).2 :=
                  digitsTake_append 6 (spanP wsJS s3).2
                rw [hsp] at e1
                rw [← hg1, ← hds2, ← hr]
                calc ('标' : Char) :: '的' :: s1
                    = '标' :: '的' :: ((spanP wsJS s1).1 ++ col :: s3) := by
                      rw [e1]
                  _ = '标' :: '的' :: ((spanP wsJS s1).1 ++
                        col :: ((spanP wsJS s3).1 ++ (spanP wsJS s3).2)) := by
                      rw [e2]
                  _ = '标' :: '的' :: ((spanP wsJS s1).1 ++
                        col :: ((spanP wsJS s3).1 ++
                          ((digitsTake 6 (spanP wsJS s3).2).1 ++
                           (digitsTake 6 (spanP wsJS s3).2).2))) := by
                      rw [e3]
                  _ = ('标' :: '的' :: ((spanP wsJS s1).1 ++
                        col :: (spanP wsJS s3).1)) ++
                        (digitsTake 6 (spanP wsJS s3).2).1 ++
                        (digitsTake 6 (spanP wsJS s3).2).2 := by
                      simp
              · exact ⟨(spanP wsJS s1).1, col, (spanP wsJS s3).1, by rw [← hg1],
                  spanP_mem wsJS s1, hcol, spanP_mem wsJS s3⟩
              · rw [← hds2]; exact hds
              · rw [← hds2]; exact digitsTake_len 6 _
              · rw [← hds2]; exact digitsTake_mem 6 _
              · by_cases h6 : ds.length = 6
                · exact Or.inl h6
                · refine Or.inr ?_
                  rw [← hr]
                  refine digitsTake_rest 6 _ ?_
                  have hle := digitsTake_len 6 (spanP wsJS s3).2
                  rw [hds2] at *
                  omega
          · simp [hcol] at h
      · rw [tryLabel] at h
        simp [h01] at h

theorem tryLabel_build (w1 w2 ds b : Str) (col : Char)
    (hw1 : ∀ c ∈ w1, wsJS c = true) (hcol : isColonC col = true)
    (hw2 : ∀ c ∈ w2, wsJS c = true)
    (hds : ∀ c ∈ ds, isDigitC c = true) (hne : ds ≠ []) (hlen : ds.length ≤ 6)
    (hb : ds.length = 6 ∨ ∀ x xs, b = x :: xs → isDigitC x = false) :
    tryLabel (('标' :: '的' :: (w1 ++ col :: w2)) ++ ds ++ b) =
      some ('标' :: '的' :: (w1 ++ col :: w2), ds, b) := by
  have e0 : (('标' : Char) :: '的' :: (w1 ++ col :: w2)) ++ ds ++ b =
      '标' :: '的' :: (w1 ++ col :: (w2 ++ (ds ++ b))) := by simp
  rw [e0]
  have hsp1 : spanP wsJS (w1 ++ col :: (w2 ++ (ds ++ b))) =
      (w1, col :: (w2 ++ (ds ++ b))) := by
    refine spanP_build wsJS w1 _ hw1 ?_
    intro x xs hx
    injection hx with hx1 _
    rw [← hx1]
    exact colon_not_ws col hcol
  have hsp2 : spanP wsJS (w2 ++ (ds ++ b)) = (w2, ds ++ b) := by
    refine spanP_build wsJS w2 _ hw2 ?_
    intro x xs hx
    cases ds with
    | nil => exact absurd rfl hne
    | cons d ds0 =>
      have : x = d := by
        have : d :: (ds0 ++ b) = x :: xs := by simpa using hx
        injection this with h1 _
        exact h1.symm
      rw [this]
      exact digit_not_ws d (hds d (by simp))
  have hdt : digitsTake 6 (ds ++ b) = (ds, b) :=
    digitsTake_build 6 ds b hds hlen hb
  rw [tryLabel]
  simp only [if_pos (And.intro rfl rfl)]
  rw [hsp1]
  simp only [hcol, if_pos]
  rw [hsp2]
  simp only [hdt]
  simp [hne]

theorem tryLabel_nil : tryLabel [] = none := rfl

theorem tryLabel_single (c : Char) : tryLabel [c] = none := rfl

theorem tryLabel_not_head (c : Char) (s : Str) (h : ¬ c = '标') :
    tryLabel (c :: s) = none := by
  cases s with
  | nil => rfl
  | cons c1 s1 =>
    rw [tryLabel]
    simp [h]

theorem tryLabel_no_digit (w1 w2 : Str) (col x : Char) (xs : Str)
    (hw1 : ∀ c ∈ w1, wsJS c = true) (hcol : isColonC col = true)
    (hw2 : ∀ c ∈ w2, wsJS c = true) (hx : wsJS x = false)
    (hd : isDigitC x = false) :
    tryLabel (('标' :: '的' :: (w1 ++ col :: w2)) ++ x :: xs) = none := by
  have e0 : (('标' : Char) :: '的' :: (w1 ++ col :: w2)) ++ x :: xs =
      '标' :: '的' :: (w1 ++ col :: (w2 ++ x :: xs)) := by simp
  rw [e0]
  have hsp1 : spanP wsJS (w1 ++ col :: (w2 ++ x :: xs)) =
      (w1, col :: (w2 ++ x :: xs)) := by
    refine spanP_build wsJS w1 _ hw1 ?_
    intro y ys hy
    injection hy with hy1 _
    rw [← hy1]
    exact colon_not_ws col hcol
  have hsp2 : spanP wsJS (w2 ++ x :: xs) = (w2, x :: xs) := by
    refine spanP_build wsJS w2 _ hw2 ?_
    intro y ys hy
    injection hy with hy1 _
    rw [← hy1]
    exact hx
  have hdt : digitsTake 6 (x :: xs) = ([], x :: xs) := by
    have := digitsTake_build 6 [] (x :: xs) (by simp) (by simp)
      (Or.inr (by intro y ys hy; injection hy with hy1 _; rw [← hy1]; exact hd))
    simpa using this
  rw [tryLabel]
  simp only [if_pos (And.intro rfl rfl)]
  rw [hsp1]
  simp only [hcol, if_pos]
  rw [hsp2]
  simp only [hdt]
  simp

theorem tryLabel_len {s g1 ds r : Str} (h : tryLabel s = some (g1, ds, r)) :
    r.length + 4 ≤ s.length := by
  obtain ⟨hs, ⟨w1, col, w2, hg1, _, _, _⟩, hne, _, _, _⟩ := tryLabel_some h
  rw [hs, hg1]
  cases ds with
  | nil => exact absurd rfl hne
  | cons d ds0 => simp; omega

/-- A parse stopped by a blocking character only depends on the text before
that character: `dropLit` version. -/
theorem dropLit_indep (pat x y z : Str) (b : Char) (hb : ¬ b ∈ pat) :
    (dropLit pat (x ++ b :: y) = none → dropLit pat (x ++ b :: z) = none) ∧
    (∀ r, dropLit pat (x ++ b :: y) = some r →
      ∃ x2, x = pat ++ x2 ∧ r = x2 ++ b :: y ∧
        dropLit pat (x ++ b :: z) = some (x2 ++ b :: z)) := by
  induction pat generalizing x with
  | nil =>
    refine ⟨?_, ?_⟩
    · intro h; simp [dropLit] at h
    · intro r h
      simp [dropLit] at h
      exact ⟨x, by simp, h.symm, rfl⟩
  | cons p ps ih =>
    have hpb : ¬ b = p := by
      intro h; exact hb (by simp [h])
    have hbps : ¬ b ∈ ps := by
      intro h; exact hb (by simp [h])
    cases x with
    | nil =>
      refine ⟨?_, ?_⟩
      · intro _; simp [dropLit, hpb]
      · intro r h; simp [dropLit, hpb] at h
    | cons c x0 =>
      by_cases hc : c = p
      · subst hc
        refine ⟨?_, ?_⟩
        · intro h
          simp [dropLit] at h ⊢
          exact (ih x0 hbps).1 h
        · intro r h
          simp [dropLit] at h ⊢
          obtain ⟨x2, hx2, hr, hz⟩ := (ih x0 hbps).2 r h
          exact ⟨x2, by simp [hx2], hr, hz⟩
      · refine ⟨?_, ?_⟩
        · intro _; simp [dropLit, hc]
        · intro r h; simp [dropLit, hc] at h

theorem spanP_indep (p : Char → Bool) (x y : Str) (b : Char)
    (hb : p b = false) :
    spanP p (x ++ b :: y) = ((spanP p x).1, (spanP p x).2 ++ b :: y) := by
  induction x with
  | nil => simp [spanP, hb]
  | cons c cs ih =>
    cases hc : p c
    · simp [spanP, hc]
    · simp [spanP, hc, ih]

theorem digitsTake_indep (n : Nat) (x y : Str) (b : Char)
    (hb : isDigitC b = false) :
    digitsTake n (x ++ b :: y) =
      ((digitsTake n x).1, (digitsTake n x).2 ++ b :: y) := by
  induction n generalizing x with
  | zero => simp [digitsTake]
  | succ m ih =>
    cases x with
    | nil => simp [digitsTake, hb]
    | cons c cs =>
      cases hc : isDigitC c
      · simp [digitsTake, hc]
      · simp [digitsTake, hc, ih]

theorem tryMarker_some {s run r : Str} (h : tryMarker s = some (run, r)) :
    s = mkStr ++ run ++ '_' :: '_' :: r ∧
    run ≠ [] ∧ run.length ≤ 6 ∧ (∀ c ∈ run, isDigitC c = true) := by
  rw [tryMarker] at h
  cases hdl : dropLit mkStr s with
  | none => rw [hdl] at h; simp at h
  | some s1 =>
    rw [hdl] at h
    have h2 : tryMarkerAux s1 = some (run, r) := h
    rw [tryMarkerAux] at h2
    by_cases hrun : (spanP isDigitC s1).1 = []
    · simp [hrun] at h2
    · by_cases hlen : (spanP isDigitC s1).1.length ≤ 6
      · simp only [hrun, hlen, if_neg, if_pos, ite_false, ite_true] at h2
        cases hdl2 : dropLit ['_', '_'] ((spanP isDigitC s1).2) with
        | none => rw [hdl2] at h2; simp at h2
        | some r2 =>
          rw [hdl2] at h2
          simp only [Option.some.injEq] at h2
          have hrun2 : (spanP isDigitC s1).1 = run := congrArg (fun t => t.1) h2
          have hr2 : r2 = r := congrArg (fun t => t.2) h2
          have e1 : s = mkStr ++ s1 := dropLit_some _ _ _ hdl
          have e2 : (spanP isDigitC s1).2 = '_' :: '_' :: r2 := by
            simpa using dropLit_some ['_', '_'] _ _ hdl2
          have e3 : (spanP isDigitC s1).1 ++ (spanP isDigitC s1).2 = s1 :=
            spanP_append isDigitC s1
          refine ⟨?_, by rw [← hrun2]; exact hrun, by rw [← hrun2]; exact hlen,
            by rw [← hrun2]; exact spanP_mem isDigitC s1⟩
          rw [e1, ← e3, hrun2, e2, hr2]
          simp
      · simp [hrun, hlen] at h2

theorem tryMarker_build (run r : Str)
    (hrun : ∀ c ∈ run, isDigitC c = true) (hne : run ≠ [])
    (hlen : run.length ≤ 6) :
    tryMarker (mkStr ++ run ++ '_' :: '_' :: r) = some (run, r) := by
  rw [tryMarker]
  have e0 : mkStr ++ run ++ '_' :: '_' :: r = mkStr ++ (run ++ '_' :: '_' :: r) := by
    simp
  rw [e0, dropLit_build]
  show tryMarkerAux (run ++ '_' :: '_' :: r) = some (run, r)
  have hsp : spanP isDigitC (run ++ '_' :: '_' :: r) = (run, '_' :: '_' :: r) := by
    refine spanP_build isDigitC run _ hrun ?_
    intro x xs hx
    injection hx with h1 _
    rw [← h1]
    decide
  rw [tryMarkerAux]
  rw [hsp]
  simp only [hne, hlen, if_neg, if_pos, ite_false, ite_true]
  have hd2 : dropLit ['_', '_'] ('_' :: '_' :: r) = some r := dropLit_build ['_', '_'] r
  rw [hd2]

theorem tryMarker_not_head (c : Char) (s : Str) (h : ¬ c = '_') :
    tryMarker (c :: s) = none := by
  rw [tryMarker]
  have hdl : dropLit mkStr (c :: s) = none := by
    show dropLit ('_' :: _) (c :: s) = none
    simp [dropLit, h]
  rw [hdl]

theorem tryMarker_nil : tryMarker [] = none := by
  rw [tryMarker]
  have hdl : dropLit mkStr [] = none := by
    show dropLit ('_' :: _) [] = none
    rfl
  rw [hdl]

theorem tryMarker_len {s run r : Str} (h : tryMarker s = some (run, r)) :
    r.length + 13 ≤ s.length := by
  obtain ⟨hs, hne, _, _⟩ := tryMarker_some h
  rw [hs]
  cases run with
  | nil => exact absurd rfl hne
  | cons d ds0 => simp [mkStr]

/-- A marker search blocked by a character outside the marker alphabet is
independent of everything after that character. -/
theorem tryMarker_indep (x y z : Str) (b : Char)
    (hb1 : isDigitC b = false) (hb2 : ¬ b ∈ mkStr)
    (h : tryMarker (x ++ b :: y) = none) : tryMarker (x ++ b :: z) = none := by
  rw [tryMarker] at h ⊢
  cases hdl : dropLit mkStr (x ++ b :: y) with
  | none =>
    have hz := (dropLit_indep mkStr x y z b hb2).1 hdl
    rw [hz]
  | some s1 =>
    obtain ⟨x2, hx2, hs1, hz⟩ := (dropLit_indep mkStr x y z b hb2).2 s1 hdl
    rw [hdl] at h
    rw [hz]
    have hy2 : tryMarkerAux s1 = none := h
    show tryMarkerAux (x2 ++ b :: z) = none
    rw [tryMarkerAux] at hy2 ⊢
    rw [hs1] at hy2
    rw [spanP_indep isDigitC x2 y b hb1] at hy2
    rw [spanP_indep isDigitC x2 z b hb1]
    by_cases hrun : (spanP isDigitC x2).1 = []
    · simp [hrun]
    · by_cases hlen : (spanP isDigitC x2).1.length ≤ 6
      · simp only [hrun, hlen, if_neg, if_pos, ite_false, ite_true] at hy2 ⊢
        have hbu : ¬ b ∈ ['_', '_'] := by
          intro hmem
          apply hb2
          have : b = '_' := by simpa using hmem
          rw [this]
          show '_' ∈ mkStr
          decide
        cases hdl2 : dropLit ['_', '_'] ((spanP isDigitC x2).2 ++ b :: y) with
        | none =>
          have := (dropLit_indep ['_', '_'] ((spanP isDigitC x2).2) y z b hbu).1 hdl2
          rw [this]
        | some r2 =>
          rw [hdl2] at hy2
          simp at hy2
      · simp [hrun, hlen]

/-- A label search from a position other than the blocking character itself is
independent of everything after that character (the blocker here is a
character that cannot occur anywhere in the label pattern past position 0). -/
theorem tryLabel_indep (x y z : Str) (b : Char) (hx : x ≠ [])
    (hb0 : ¬ b = '的') (hb1 : wsJS b = false) (hb2 : isColonC b = false)
    (hb3 : isDigitC b = false)
    (h : tryLabel (x ++ b :: y) = none) : tryLabel (x ++ b :: z) = none := by
  cases x with
  | nil => exact absurd rfl hx
  | cons c0 x0 =>
    cases x0 with
    | nil =>
      show tryLabel (c0 :: b :: z) = none
      rw [tryLabel]
      have hno : ¬ (c0 = '标' ∧ b = '的') := fun hc => hb0 hc.2
      simp only [hno, if_neg, ite_false]
    | cons c1 x1 =>
      have ey : (c0 :: c1 :: x1 : Str) ++ b :: y = c0 :: c1 :: (x1 ++ b :: y) := by
        simp
      have ez : (c0 :: c1 :: x1 : Str) ++ b :: z = c0 :: c1 :: (x1 ++ b :: z) := by
        simp
      rw [ey] at h
      rw [ez]
      by_cases h01 : c0 = '标' ∧ c1 = '的'
      · obtain ⟨h0, h1⟩ := h01
        subst h0; subst h1
        rw [tryLabel] at h ⊢
        simp only [if_pos (And.intro rfl rfl)] at h ⊢
        rw [spanP_indep wsJS x1 y b hb1] at h
        rw [spanP_indep wsJS x1 z b hb1]
        cases hsp : (spanP wsJS x1).2 with
        | nil =>
          simp only [hsp, List.nil_append] at h ⊢
          simp only [hb2, Bool.false_eq_true, if_neg, ite_false] at h ⊢
          exact h
        | cons col s3 =>
          simp only [hsp, List.cons_append] at h ⊢
          by_cases hcol : isColonC col = true
          · simp only [hcol, if_pos, ite_true] at h ⊢
            rw [spanP_indep wsJS s3 y b hb1] at h
            rw [spanP_indep wsJS s3 z b hb1]
            rw [digitsTake_indep 6 ((spanP wsJS s3).2) y b hb3] at h
            rw [digitsTake_indep 6 ((spanP wsJS s3).2) z b hb3]
            by_cases hds : (digitsTake 6 (spanP wsJS s3).2).1 = []
            · simp only [hds, if_pos, ite_true] at h ⊢
              simp
            · simp only [hds, if_neg, ite_false] at h
              simp at h
          · simp only [hcol, if_neg, ite_false] at h ⊢
            exact h
      · rw [tryLabel] at h ⊢
        simp only [h01, if_neg, ite_false]

theorem replTF_fuel : ∀ n m (s : Str), s.length ≤ n → s.length ≤ m →
    replTF n s = replTF m s := by
  intro n
  induction n with
  | zero =>
    intro m s hn _
    have h0 : s = [] := List.eq_nil_of_length_eq_zero (Nat.le_zero.mp hn)
    subst h0
    cases m <;> rfl
  | succ k ih =>
    intro m s hn hm
    cases s with
    | nil => cases m <;> rfl
    | cons c cs =>
      cases m with
      | zero => simp at hm
      | succ m2 =>
        rw [replTF, replTF]
        cases htl : tryLabel (c :: cs) with
        | some v =>
          obtain ⟨g1, code, r⟩ := v
          have hlen := tryLabel_len htl
          simp only [List.length_cons] at hlen
          simp only [htl]
          have h1 : r.length ≤ k := by simp at hn; omega
          have h2 : r.length ≤ m2 := by simp at hm; omega
          rw [ih m2 r h1 h2]
        | none =>
          simp only [htl]
          have h1 : cs.length ≤ k := by simp at hn; omega
          have h2 : cs.length ≤ m2 := by simp at hm; omega
          rw [ih m2 cs h1 h2]

theorem replaceTargets_nil : replaceTargets [] = [] := rfl

theorem replaceTargets_match {s g1 code r : Str}
    (h : tryLabel s = some (g1, code, r)) :
    replaceTargets s = g1 ++ mkMarker code ++ replaceTargets r := by
  cases s with
  | nil => rw [tryLabel_nil] at h; exact absurd h (by simp)
  | cons c cs =>
    show replTF (cs.length + 1) (c :: cs) = _
    rw [replTF]
    simp only [h]
    have hlen := tryLabel_len h
    simp only [List.length_cons] at hlen
    rw [replTF_fuel cs.length r.length r (by omega) (le_refl _)]
    rfl

theorem replaceTargets_cons {c : Char} {cs : Str}
    (h : tryLabel (c :: cs) = none) :
    replaceTargets (c :: cs) = c :: replaceTargets cs := by
  show replTF (cs.length + 1) (c :: cs) = _
  rw [replTF]
  simp only [h]
  rfl

theorem resolTF_fuel (f : Str → Option Str) : ∀ n m (s : Str),
    s.length ≤ n → s.length ≤ m → resolTF f n s = resolTF f m s := by
  intro n
  induction n with
  | zero =>
    intro m s hn _
    have h0 : s = [] := List.eq_nil_of_length_eq_zero (Nat.le_zero.mp hn)
    subst h0
    cases m <;> rfl
  | succ k ih =>
    intro m s hn hm
    cases s with
    | nil => cases m <;> rfl
    | cons c cs =>
      cases m with
      | zero => simp at hm
      | succ m2 =>
        rw [resolTF, resolTF]
        cases htl : tryMarker (c :: cs) with
        | some v =>
          obtain ⟨code, r⟩ := v
          have hlen := tryMarker_len htl
          simp only [List.length_cons] at hlen
          simp only [htl]
          have h1 : r.length ≤ k := by simp at hn; omega
          have h2 : r.length ≤ m2 := by simp at hm; omega
          rw [ih m2 r h1 h2]
        | none =>
          simp only [htl]
          have h1 : cs.length ≤ k := by simp at hn; omega
          have h2 : cs.length ≤ m2 := by simp at hm; omega
          rw [ih m2 cs h1 h2]

theorem resolveSubst_nil (f : Str → Option Str) : resolveSubst f [] = [] := rfl

theorem resolveSubst_match {s code r : Str} (f : Str → Option Str)
    (h : tryMarker s = some (code, r)) :
    resolveSubst f s = substOne f code ++ resolveSubst f r := by
  cases s with
  | nil => rw [tryMarker_nil] at h; exact absurd h (by simp)
  | cons c cs =>
    show resolTF f (cs.length + 1) (c :: cs) = _
    rw [resolTF]
    simp only [h]
    have hlen := tryMarker_len h
    simp only [List.length_cons] at hlen
    rw [resolTF_fuel f cs.length r.length r (by omega) (le_refl _)]
    rfl

theorem resolveSubst_cons {c : Char} {cs : Str} (f : Str → Option Str)
    (h : tryMarker (c :: cs) = none) :
    resolveSubst f (c :: cs) = c :: resolveSubst f cs := by
  show resolTF f (cs.length + 1) (c :: cs) = _
  rw [resolTF]
  simp only [h]
  rfl

theorem codesTF_fuel : ∀ n m (s : Str),
    s.length ≤ n → s.length ≤ m → codesTF n s = codesTF m s := by
  intro n
  induction n with
  | zero =>
    intro m s hn _
    have h0 : s = [] := List.eq_nil_of_length_eq_zero (Nat.le_zero.mp hn)
    subst h0
    cases m <;> rfl
  | succ k ih =>
    intro m s hn hm
    cases s with
    | nil => cases m <;> rfl
    | cons c cs =>
      cases m with
      | zero => simp at hm
      | succ m2 =>
        rw [codesTF, codesTF]
        cases htl : tryMarker (c :: cs) with
        | some v =>
          obtain ⟨code, r⟩ := v
          have hlen := tryMarker_len htl
          simp only [List.length_cons] at hlen
          simp only [htl]
          have h1 : r.length ≤ k := by simp at hn; omega
          have h2 : r.length ≤ m2 := by simp at hm; omega
          rw [ih m2 r h1 h2]
        | none =>
          simp only [htl]
          have h1 : cs.length ≤ k := by simp at hn; omega
          have h2 : cs.length ≤ m2 := by simp at hm; omega
          rw [ih m2 cs h1 h2]

theorem markerCodes_nil : markerCodes [] = [] := rfl

theorem markerCodes_match {s code r : Str} (h : tryMarker s = some (code, r)) :
    markerCodes s = code :: markerCodes r := by
  cases s with
  | nil => rw [tryMarker_nil] at h; exact absurd h (by simp)
  | cons c cs =>
    show codesTF (cs.length + 1) (c :: cs) = _
    rw [codesTF]
    simp only [h]
    have hlen := tryMarker_len h
    simp only [List.length_cons] at hlen
    rw [codesTF_fuel cs.length r.length r (by omega) (le_refl _)]
    rfl

theorem markerCodes_cons {c : Char} {cs : Str} (h : tryMarker (c :: cs) = none) :
    markerCodes (c :: cs) = markerCodes cs := by
  show codesTF (cs.length + 1) (c :: cs) = _
  rw [codesTF]
  simp only [h]
  rfl

theorem pipeTF_fuel (f : Str → Option Str) : ∀ n m (s : Str),
    s.length ≤ n → s.length ≤ m → pipeTF f n s = pipeTF f m s := by
  intro n
  induction n with
  | zero =>
    intro m s hn _
    have h0 : s = [] := List.eq_nil_of_length_eq_zero (Nat.le_zero.mp hn)
    subst h0
    cases m <;> rfl
  | succ k ih =>
    intro m s hn hm
    cases s with
    | nil => cases m <;> rfl
    | cons c cs =>
      cases m with
      | zero => simp at hm
      | succ m2 =>
        rw [pipeTF, pipeTF]
        cases htl : tryLabel (c :: cs) with
        | some v =>
          obtain ⟨g1, code, r⟩ := v
          have hlen := tryLabel_len htl
          simp only [List.length_cons] at hlen
          simp only [htl]
          have h1 : r.length ≤ k := by simp at hn; omega
          have h2 : r.length ≤ m2 := by simp at hm; omega
          rw [ih m2 r h1 h2]
        | none =>
          simp only [htl]
          cases htm : tryMarker (c :: cs) with
          | some v =>
            obtain ⟨code, r⟩ := v
            have hlen := tryMarker_len htm
            simp only [List.length_cons] at hlen
            simp only [htm]
            have h1 : r.length ≤ k := by simp at hn; omega
            have h2 : r.length ≤ m2 := by simp at hm; omega
            rw [ih m2 r h1 h2]
          | none =>
            simp only [htm]
            have h1 : cs.length ≤ k := by simp at hn; omega
            have h2 : cs.length ≤ m2 := by simp at hm; omega
            rw [ih m2 cs h1 h2]

theorem pipeSub_nil (f : Str → Option Str) : pipeSub f [] = [] := rfl

theorem pipeSub_label {s g1 code r : Str} (f : Str → Option Str)
    (h : tryLabel s = some (g1, code, r)) :
    pipeSub f s = g1 ++ substOne f code ++ pipeSub f r := by
  cases s with
  | nil => rw [tryLabel_nil] at h; exact absurd h (by simp)
  | cons c cs =>
    show pipeTF f (cs.length + 1) (c :: cs) = _
    rw [pipeTF]
    simp only [h]
    have hlen := tryLabel_len h
    simp only [List.length_cons] at hlen
    rw [pipeTF_fuel f cs.length r.length r (by omega) (le_refl _)]
    rfl

theorem pipeSub_marker {s code r : Str} (f : Str → Option Str)
    (h1 : tryLabel s = none) (h : tryMarker s = some (code, r)) :
    pipeSub f s = substOne f code ++ pipeSub f r := by
  cases s with
  | nil => rw [tryMarker_nil] at h; exact absurd h (by simp)
  | cons c cs =>
    show pipeTF f (cs.length + 1) (c :: cs) = _
    rw [pipeTF]
    simp only [h1, h]
    have hlen := tryMarker_len h
    simp only [List.length_cons] at hlen
    rw [pipeTF_fuel f cs.length r.length r (by omega) (le_refl _)]
    rfl

theorem pipeSub_cons {c : Char} {cs : Str} (f : Str → Option Str)
    (h1 : tryLabel (c :: cs) = none) (h2 : tryMarker (c :: cs) = none) :
    pipeSub f (c :: cs) = c :: pipeSub f cs := by
  show pipeTF f (cs.length + 1) (c :: cs) = _
  rw [pipeTF]
  simp only [h1, h2]
  rfl

/-! ### Scan concatenation and structure lemmas -/
theorem replaceTargets_append (a b : Str) (h : ∀ c ∈ a, ¬ c = '标') :
    replaceTargets (a ++ b) = a ++ replaceTargets b := by
  induction a with
  | nil => simp
  | cons c cs ih =>
    have h0 : tryLabel (c :: (cs ++ b)) = none :=
      tryLabel_not_head c _ (h c (by simp))
    rw [List.cons_append, replaceTargets_cons h0,
      ih (fun d hd => h d (by simp [hd]))]
    rfl

theorem resolveSubst_append (f : Str → Option Str) (a b : Str)
    (h : ∀ c ∈ a, ¬ c = '_') :
    resolveSubst f (a ++ b) = a ++ resolveSubst f b := by
  induction a with
  | nil => simp
  | cons c cs ih =>
    have h0 : tryMarker (c :: (cs ++ b)) = none :=
      tryMarker_not_head c _ (h c (by simp))
    rw [List.cons_append, resolveSubst_cons f h0,
      ih (fun d hd => h d (by simp [hd]))]
    rfl

theorem pipeSub_append (f : Str → Option Str) (a b : Str)
    (h1 : ∀ c ∈ a, ¬ c = '标') (h2 : ∀ c ∈ a, ¬ c = '_') :
    pipeSub f (a ++ b) = a ++ pipeSub f b := by
  induction a with
  | nil => simp
  | cons c cs ih =>
    have h01 : tryLabel (c :: (cs ++ b)) = none :=
      tryLabel_not_head c _ (h1 c (by simp))
    have h02 : tryMarker (c :: (cs ++ b)) = none :=
      tryMarker_not_head c _ (h2 c (by simp))
    rw [List.cons_append, pipeSub_cons f h01 h02,
      ih (fun d hd => h1 d (by simp [hd])) (fun d hd => h2 d (by simp [hd]))]
    rfl

theorem replaceTargets_structure (s : Str) :
    replaceTargets s = s ∨
    ∃ pre y z, s = pre ++ '标' :: y ∧ replaceTargets s = pre ++ '标' :: z := by
  suffices h : ∀ n (s : Str), s.length ≤ n → replaceTargets s = s ∨
      ∃ pre y z, s = pre ++ '标' :: y ∧ replaceTargets s = pre ++ '标' :: z by
    exact h s.length s (le_refl _)
  intro n
  induction n with
  | zero =>
    intro s hn
    have h0 : s = [] := List.eq_nil_of_length_eq_zero (Nat.le_zero.mp hn)
    subst h0
    exact Or.inl rfl
  | succ k ih =>
    intro s hn
    cases htl : tryLabel s with
    | some v =>
      obtain ⟨g1, code, r⟩ := v
      obtain ⟨hs, ⟨w1, col, w2, hg1, _, _, _⟩, _, _, _, _⟩ := tryLabel_some htl
      refine Or.inr ⟨[], '的' :: (w1 ++ col :: w2) ++ code ++ r,
        '的' :: (w1 ++ col :: w2) ++ mkMarker code ++ replaceTargets r, ?_, ?_⟩
      · rw [hs, hg1]; simp
      · rw [replaceTargets_match htl, hg1]; simp
    | none =>
      cases s with
      | nil => exact Or.inl rfl
      | cons c cs =>
        rw [replaceTargets_cons htl]
        rcases ih cs (by simp at hn; omega) with h | ⟨pre, y, z, hy, hz⟩
        · exact Or.inl (by rw [h])
        · exact Or.inr ⟨c :: pre, y, z, by rw [hy]; rfl, by rw [hz]; rfl⟩

theorem MarkerFree_drop (t : Str) (k : Nat) (h : MarkerFree t) :
    MarkerFree (t.drop k) := by
  intro i
  rw [List.drop_drop]
  exact h _

theorem MarkerFree_tail {c : Char} {cs : Str} (h : MarkerFree (c :: cs)) :
    MarkerFree cs := by
  have := MarkerFree_drop (c :: cs) 1 h
  simpa using this

theorem MarkerFree_label_rest {s g1 code r : Str}
    (htl : tryLabel s = some (g1, code, r)) (h : MarkerFree s) :
    MarkerFree r := by
  obtain ⟨hs, _, _, _, _, _⟩ := tryLabel_some htl
  have e : r = s.drop (g1.length + code.length) := by
    rw [hs]
    rw [show g1 ++ code ++ r = (g1 ++ code) ++ r by simp]
    rw [show g1.length + code.length = (g1 ++ code).length by simp]
    rw [List.drop_left]
  rw [e]
  exact MarkerFree_drop s _ h

theorem pipeSub_structure (f : Str → Option Str) (s : Str) (hmf : MarkerFree s) :
    pipeSub f s = s ∨
    ∃ pre y z, s = pre ++ '标' :: y ∧ pipeSub f s = pre ++ '标' :: z := by
  suffices h : ∀ n (s : Str), s.length ≤ n → MarkerFree s → pipeSub f s = s ∨
      ∃ pre y z, s = pre ++ '标' :: y ∧ pipeSub f s = pre ++ '标' :: z by
    exact h s.length s (le_refl _) hmf
  intro n
  induction n with
  | zero =>
    intro s hn _
    have h0 : s = [] := List.eq_nil_of_length_eq_zero (Nat.le_zero.mp hn)
    subst h0
    exact Or.inl rfl
  | succ k ih =>
    intro s hn hm
    cases htl : tryLabel s with
    | some v =>
      obtain ⟨g1, code, r⟩ := v
      obtain ⟨hs, ⟨w1, col, w2, hg1, _, _, _⟩, _, _, _, _⟩ := tryLabel_some htl
      refine Or.inr ⟨[], '的' :: (w1 ++ col :: w2) ++ code ++ r,
        '的' :: (w1 ++ col :: w2) ++ substOne f code ++ pipeSub f r, ?_, ?_⟩
      · rw [hs, hg1]; simp
      · rw [pipeSub_label f htl, hg1]; simp
    | none =>
      cases s with
      | nil => exact Or.inl rfl
      | cons c cs =>
        have htm : tryMarker (c :: cs) = none := by
          have := hm 0
          simpa using this
        rw [pipeSub_cons f htl htm]
        rcases ih cs (by simp at hn; omega) (MarkerFree_tail hm) with
          h | ⟨pre, y, z, hy, hz⟩
        · exact Or.inl (by rw [h])
        · exact Or.inr ⟨c :: pre, y, z, by rw [hy]; rfl, by rw [hz]; rfl⟩

theorem class_ne (p : Char → Bool) (c ch : Char) (h : p c = true)
    (h2 : p ch = false) : ¬ c = ch := by
  intro he
  rw [he, h2] at h
  exact Bool.false_ne_true h

theorem g1_no_underscore (w1 w2 : Str) (col : Char)
    (hw1 : ∀ c ∈ w1, wsJS c = true) (hcol : isColonC col = true)
    (hw2 : ∀ c ∈ w2, wsJS c = true) :
    ∀ c ∈ ('标' :: '的' :: (w1 ++ col :: w2) : Str), ¬ c = '_' := by
  intro c hc he
  subst he
  rcases List.mem_cons.mp hc with h | hc1
  · exact absurd h (by decide)
  rcases List.mem_cons.mp hc1 with h | hc2
  · exact absurd h (by decide)
  rcases List.mem_append.mp hc2 with h | hc3
  · exact absurd (hw1 _ h) (by decide)
  rcases List.mem_cons.mp hc3 with h | hc4
  · rw [← h] at hcol
    exact absurd hcol (by decide)
  · exact absurd (hw2 _ hc4) (by decide)

theorem markerSpan_no_label (code : Str)
    (hdig : ∀ c ∈ code, isDigitC c = true) :
    ∀ c ∈ (mkStr ++ code ++ ['_', '_'] : Str), ¬ c = '标' := by
  intro c hc he
  subst he
  rcases List.mem_append.mp hc with h0 | hc2
  · rcases List.mem_append.mp h0 with h | h
    · exact absurd h (by decide)
    · exact absurd (hdig _ h) (by decide)
  · exact absurd hc2 (by decide)

theorem pipe_eq (f : Str → Option Str) (s : Str) :
    resolveSubst f (replaceTargets s) = pipeSub f s := by
  suffices h : ∀ n (s : Str), s.length ≤ n →
      resolveSubst f (replaceTargets s) = pipeSub f s from
    h s.length s (le_refl _)
  intro n
  induction n with
  | zero =>
    intro s hn
    have h0 : s = [] := List.eq_nil_of_length_eq_zero (Nat.le_zero.mp hn)
    subst h0
    rfl
  | succ k ih =>
    intro s hn
    cases htl : tryLabel s with
    | some v =>
      obtain ⟨g1, code, r⟩ := v
      obtain ⟨hs, ⟨w1, col, w2, hg1, hw1, hcol, hw2⟩, hne, hlen6, hdig, hmax⟩ :=
        tryLabel_some htl
      have hrlen : r.length ≤ k := by
        have := tryLabel_len htl
        omega
      rw [replaceTargets_match htl, pipeSub_label f htl]
      rw [show g1 ++ mkMarker code ++ replaceTargets r =
        g1 ++ (mkMarker code ++ replaceTargets r) by simp]
      rw [hg1]
      rw [resolveSubst_append f _ _ (g1_no_underscore w1 w2 col hw1 hcol hw2)]
      rw [show mkMarker code ++ replaceTargets r =
        mkStr ++ code ++ '_' :: '_' :: replaceTargets r by simp [mkMarker]]
      rw [resolveSubst_match f (tryMarker_build code _ hdig hne hlen6)]
      rw [ih r hrlen]
      simp
    | none =>
      cases htm : tryMarker s with
      | some v =>
        obtain ⟨code, r⟩ := v
        obtain ⟨hs, hne, hlen6, hdig⟩ := tryMarker_some htm
        have hrlen : r.length ≤ k := by
          have := tryMarker_len htm
          omega
        rw [pipeSub_marker f htl htm]
        rw [hs]
        rw [show mkStr ++ code ++ '_' :: '_' :: r =
          (mkStr ++ code ++ ['_', '_']) ++ r by simp]
        rw [replaceTargets_append _ r (markerSpan_no_label code hdig)]
        rw [show (mkStr ++ code ++ ['_', '_']) ++ replaceTargets r =
          mkStr ++ code ++ '_' :: '_' :: replaceTargets r by simp]
        rw [resolveSubst_match f (tryMarker_build code _ hdig hne hlen6)]
        rw [ih r hrlen]
      | none =>
        cases s with
        | nil => rfl
        | cons c cs =>
          have hcslen : cs.length ≤ k := by simp at hn; omega
          rw [replaceTargets_cons htl, pipeSub_cons f htl htm]
          have hmk : tryMarker (c :: replaceTargets cs) = none := by
            by_cases hc : c = '_'
            · subst hc
              rcases replaceTargets_structure cs with h | ⟨pre, y, z, hy, hz⟩
              · rw [h]; exact htm
              · rw [hz]
                have h9 : tryMarker (('_' :: pre) ++ '标' :: z) = none := by
                  apply tryMarker_indep ('_' :: pre) y z '标' (by decide) (by decide)
                  rw [show ('_' :: pre) ++ '标' :: y = '_' :: (pre ++ '标' :: y)
                    from rfl, ← hy]
                  exact htm
                simpa using h9
            · exact tryMarker_not_head c _ hc
          rw [resolveSubst_cons f hmk]
          rw [ih cs hcslen]

theorem ws_ne_label {c : Char} (h : wsJS c = true) : ¬ c = '标' :=
  class_ne wsJS c '标' h (by decide)

theorem ws_ne_underscore {c : Char} (h : wsJS c = true) : ¬ c = '_' :=
  class_ne wsJS c '_' h (by decide)

theorem digit_ne_label {c : Char} (h : isDigitC c = true) : ¬ c = '标' :=
  class_ne isDigitC c '标' h (by decide)

theorem digit_ne_underscore {c : Char} (h : isDigitC c = true) : ¬ c = '_' :=
  class_ne isDigitC c '_' h (by decide)

theorem pieceA_mem (w1 w2 nm code : Str) (col : Char)
    (hw1 : ∀ c ∈ w1, wsJS c = true) (hcol : isColonC col = true)
    (hw2 : ∀ c ∈ w2, wsJS c = true)
    (hnmu : ¬ '_' ∈ nm) (hnml : ¬ '标' ∈ nm)
    (hdig : ∀ c ∈ code, isDigitC c = true) :
    ∀ ch ∈ ('的' :: ((w1 ++ col :: w2) ++ (nm ++ '(' :: (code ++ [')']))) : Str),
      ¬ ch = '标' ∧ ¬ ch = '_' := by
  intro ch hch
  rcases List.mem_cons.mp hch with h | hch1
  · subst h; exact ⟨by decide, by decide⟩
  rcases List.mem_append.mp hch1 with hch2 | hch2
  · rcases List.mem_append.mp hch2 with h | hch3
    · exact ⟨ws_ne_label (hw1 _ h), ws_ne_underscore (hw1 _ h)⟩
    rcases List.mem_cons.mp hch3 with h | h
    · subst h
      refine ⟨class_ne isColonC ch '标' hcol (by decide),
              class_ne isColonC ch '_' hcol (by decide)⟩
    · exact ⟨ws_ne_label (hw2 _ h), ws_ne_underscore (hw2 _ h)⟩
  rcases List.mem_append.mp hch2 with h | hch3
  · constructor
    · intro he; subst he; exact hnml h
    · intro he; subst he; exact hnmu h
  rcases List.mem_cons.mp hch3 with h | hch4
  · subst h; exact ⟨by decide, by decide⟩
  rcases List.mem_append.mp hch4 with h | h
  · exact ⟨digit_ne_label (hdig _ h), digit_ne_underscore (hdig _ h)⟩
  · have : ch = ')' := by simpa using h
    subst this; exact ⟨by decide, by decide⟩

theorem pipeSub_idem (f : Str → Option Str) (hf : InertNames f) (s : Str)
    (hmf : MarkerFree s) : pipeSub f (pipeSub f s) = pipeSub f s := by
  suffices h : ∀ n (s : Str), s.length ≤ n → MarkerFree s →
      pipeSub f (pipeSub f s) = pipeSub f s from h s.length s (le_refl _) hmf
  intro n
  induction n with
  | zero =>
    intro s hn _
    have h0 : s = [] := List.eq_nil_of_length_eq_zero (Nat.le_zero.mp hn)
    subst h0
    rfl
  | succ k ih =>
    intro s hn hm
    cases htl : tryLabel s with
    | some v =>
      obtain ⟨g1, code, r⟩ := v
      obtain ⟨hs, ⟨w1, col, w2, hg1, hw1, hcol, hw2⟩, hne, hlen6, hdig, hmax⟩ :=
        tryLabel_some htl
      have hrlen : r.length ≤ k := by
        have := tryLabel_len htl
        omega
      have hmfr : MarkerFree r := MarkerFree_label_rest htl hm
      rw [pipeSub_label f htl]
      cases hfc : f code with
      | some nm =>
        obtain ⟨hnmne, hnmhead, hnmu, hnml⟩ := hf code nm hfc
        have hsub : substOne f code = nm ++ '(' :: (code ++ [')']) := by
          rw [substOne, hfc]
        cases nm with
        | nil => exact absurd rfl hnmne
        | cons nh nt =>
          have hnh := hnmhead nh nt rfl
          have eA : g1 ++ substOne f code ++ pipeSub f r =
              '标' :: ('的' :: ((w1 ++ col :: w2) ++
                ((nh :: nt) ++ '(' :: (code ++ [')']))) ++ pipeSub f r) := by
            rw [hsub, hg1]
            simp
          rw [eA]
          have hlab : tryLabel ('标' :: ('的' :: ((w1 ++ col :: w2) ++
              ((nh :: nt) ++ '(' :: (code ++ [')']))) ++ pipeSub f r)) = none := by
            have e2 : ('标' : Char) :: ('的' :: ((w1 ++ col :: w2) ++
                ((nh :: nt) ++ '(' :: (code ++ [')']))) ++ pipeSub f r) =
                ('标' :: '的' :: (w1 ++ col :: w2)) ++
                  nh :: (nt ++ '(' :: (code ++ [')']) ++ pipeSub f r) := by
              simp
            rw [e2]
            exact tryLabel_no_digit w1 w2 col nh _ hw1 hcol hw2 hnh.2 hnh.1
          have hmar : tryMarker ('标' :: ('的' :: ((w1 ++ col :: w2) ++
              ((nh :: nt) ++ '(' :: (code ++ [')']))) ++ pipeSub f r)) = none :=
            tryMarker_not_head _ _ (by decide)
          rw [pipeSub_cons f hlab hmar]
          have hA := pieceA_mem w1 w2 (nh :: nt) code col hw1 hcol hw2 hnmu hnml hdig
          rw [show ('的' :: ((w1 ++ col :: w2) ++
              ((nh :: nt) ++ '(' :: (code ++ [')']))) ++ pipeSub f r : Str) =
              ('的' :: ((w1 ++ col :: w2) ++
                ((nh :: nt) ++ '(' :: (code ++ [')'])))) ++ pipeSub f r from rfl]
          rw [pipeSub_append f _ _ (fun c hc => (hA c hc).1) (fun c hc => (hA c hc).2)]
          rw [ih r hrlen hmfr]
      | none =>
        have hsub : substOne f code = code := by
          rw [substOne, hfc]
        rw [hsub]
        have hhead : code.length = 6 ∨
            ∀ x xs, pipeSub f r = x :: xs → isDigitC x = false := by
          rcases hmax with h6 | hrh
          · exact Or.inl h6
          · refine Or.inr ?_
            rcases pipeSub_structure f r hmfr with h | ⟨pre, y, z, hy, hz⟩
            · rw [h]; exact hrh
            · intro x xs hx
              cases pre with
              | nil =>
                rw [hz] at hx
                simp at hx
                rw [← hx.1]
                decide
              | cons p pre2 =>
                rw [hz] at hx
                simp at hx
                have hrh2 := hrh p (pre2 ++ '标' :: y) (by rw [hy]; rfl)
                rw [← hx.1]
                exact hrh2
        have hbuild : tryLabel (g1 ++ code ++ pipeSub f r) =
            some (g1, code, pipeSub f r) := by
          rw [hg1]
          exact tryLabel_build w1 w2 code _ col hw1 hcol hw2 hdig hne hlen6 hhead
        rw [pipeSub_label f hbuild, hsub]
        rw [ih r hrlen hmfr]
    | none =>
      cases htm : tryMarker s with
      | some v =>
        have := hm 0
        simp at this
        rw [this] at htm
        exact absurd htm (by simp)
      | none =>
        cases s with
        | nil => rfl
        | cons c cs =>
          have hcslen : cs.length ≤ k := by simp at hn; omega
          have hmfcs : MarkerFree cs := MarkerFree_tail hm
          rw [pipeSub_cons f htl htm]
          rcases pipeSub_structure f cs hmfcs with h | ⟨pre, y, z, hy, hz⟩
          · rw [h, pipeSub_cons f htl htm, h]
          · have hlab2 : tryLabel (c :: pipeSub f cs) = none := by
              rw [hz]
              have h9 : tryLabel ((c :: pre) ++ '标' :: z) = none := by
                apply tryLabel_indep (c :: pre) y z '标' (by simp)
                  (by decide) (by decide) (by decide) (by decide)
                rw [show (c :: pre) ++ '标' :: y = c :: (pre ++ '标' :: y)
                  from rfl, ← hy]
                exact htl
              simpa using h9
            have hmar2 : tryMarker (c :: pipeSub f cs) = none := by
              rw [hz]
              have h9 : tryMarker ((c :: pre) ++ '标' :: z) = none := by
                apply tryMarker_indep (c :: pre) y z '标' (by decide) (by decide)
                rw [show (c :: pre) ++ '标' :: y = c :: (pre ++ '标' :: y)
                  from rfl, ← hy]
                exact htm
              simpa using h9
            rw [pipeSub_cons f hlab2 hmar2]
            rw [ih cs hcslen hmfcs]

theorem jsSetDedupAux_mem (l : List Str) :
    ∀ seen c, c ∈ jsSetDedupAux seen l ↔ (c ∈ l ∧ ¬ c ∈ seen) := by
  induction l with
  | nil => intro seen c; simp [jsSetDedupAux]
  | cons x xs ih =>
    intro seen c
    by_cases hx : x ∈ seen
    · rw [jsSetDedupAux]
      simp only [hx, if_pos, ite_true]
      rw [ih seen c]
      constructor
      · rintro ⟨h1, h2⟩
        exact ⟨by simp [h1], h2⟩
      · rintro ⟨h1, h2⟩
        rcases List.mem_cons.mp h1 with h | h
        · subst h; exact absurd hx h2
        · exact ⟨h, h2⟩
    · rw [jsSetDedupAux]
      simp only [hx, if_neg, ite_false]
      by_cases hc : c = x
      · subst hc
        simp only [List.mem_cons, true_or, true_and]
        constructor
        · intro _; exact hx
        · intro _; simp
      · constructor
        · intro h
          rcases List.mem_cons.mp h with h | h
          · exact absurd h hc
          · have := (ih (x :: seen) c).mp h
            refine ⟨by simp [this.1], fun hs => this.2 (by simp [hs])⟩
        · rintro ⟨h1, h2⟩
          rcases List.mem_cons.mp h1 with h | h
          · exact absurd h hc
          · refine List.mem_cons.mpr (Or.inr ((ih (x :: seen) c).mpr ⟨h, ?_⟩))
            intro hs
            rcases List.mem_cons.mp hs with h3 | h3
            · exact hc h3
            · exact h2 h3

theorem jsSetDedup_mem (l : List Str) (c : Str) :
    c ∈ jsSetDedup l ↔ c ∈ l := by
  rw [jsSetDedup, jsSetDedupAux_mem l [] c]
  simp

theorem jsSetDedupAux_nodup (l : List Str) :
    ∀ seen, (jsSetDedupAux seen l).Nodup := by
  induction l with
  | nil => intro seen; simp [jsSetDedupAux]
  | cons x xs ih =>
    intro seen
    by_cases hx : x ∈ seen
    · rw [jsSetDedupAux]
      simp only [hx, if_pos, ite_true]
      exact ih seen
    · rw [jsSetDedupAux]
      simp only [hx, if_neg, ite_false]
      refine List.nodup_cons.mpr ⟨?_, ih (x :: seen)⟩
      intro hmem
      have := (jsSetDedupAux_mem xs (x :: seen) x).mp hmem
      exact this.2 (by simp)

theorem jsSetDedup_nodup (l : List Str) : (jsSetDedup l).Nodup :=
  jsSetDedupAux_nodup l []

theorem lookupA_map_mem (f : Str → Option Str) (codes : List Str) (c : Str)
    (h : c ∈ codes) :
    lookupA (codes.map (fun c2 => (c2, f c2))) c = some (f c) := by
  induction codes with
  | nil => simp at h
  | cons k ks ih =>
    by_cases hc : c = k
    · subst hc
      simp [lookupA]
    · rcases List.mem_cons.mp h with h2 | h2
      · exact absurd h2 hc
      · simp only [List.map_cons, lookupA, hc, if_neg, ite_false]
        exact ih h2

theorem resolveSubst_congr (f g : Str → Option Str) (s : Str)
    (h : ∀ c ∈ markerCodes s, f c = g c) :
    resolveSubst f s = resolveSubst g s := by
  suffices hh : ∀ n (s : Str), s.length ≤ n → (∀ c ∈ markerCodes s, f c = g c) →
      resolveSubst f s = resolveSubst g s from hh s.length s (le_refl _) h
  intro n
  induction n with
  | zero =>
    intro s hn _
    have h0 : s = [] := List.eq_nil_of_length_eq_zero (Nat.le_zero.mp hn)
    subst h0
    rfl
  | succ k ih =>
    intro s hn hcg
    cases htm : tryMarker s with
    | some v =>
      obtain ⟨code, r⟩ := v
      have hrlen : r.length ≤ k := by
        have := tryMarker_len htm
        omega
      rw [resolveSubst_match f htm, resolveSubst_match g htm]
      have hmc := markerCodes_match htm
      have hcode : f code = g code := hcg code (by rw [hmc]; simp)
      have hsub : substOne f code = substOne g code := by
        rw [substOne, substOne, hcode]
      rw [hsub, ih r hrlen (fun c hc => hcg c (by rw [hmc]; simp [hc]))]
    | none =>
      cases s with
      | nil => rfl
      | cons c cs =>
        have hcslen : cs.length ≤ k := by simp at hn; omega
        rw [resolveSubst_cons f htm, resolveSubst_cons g htm]
        have hmc := markerCodes_cons htm
        rw [ih cs hcslen (fun c2 hc2 => hcg c2 (by rw [hmc]; exact hc2))]

theorem resolveSubst_no_marker (f : Str → Option Str) (s : Str)
    (h : markerCodes s = []) : resolveSubst f s = s := by
  suffices hh : ∀ n (s : Str), s.length ≤ n → markerCodes s = [] →
      resolveSubst f s = s from hh s.length s (le_refl _) h
  intro n
  induction n with
  | zero =>
    intro s hn _
    have h0 : s = [] := List.eq_nil_of_length_eq_zero (Nat.le_zero.mp hn)
    subst h0
    rfl
  | succ k ih =>
    intro s hn hmc
    cases htm : tryMarker s with
    | some v =>
      obtain ⟨code, r⟩ := v
      rw [markerCodes_match htm] at hmc
      exact absurd hmc (by simp)
    | none =>
      cases s with
      | nil => rfl
      | cons c cs =>
        have hcslen : cs.length ≤ k := by simp at hn; omega
        rw [resolveSubst_cons f htm]
        rw [markerCodes_cons htm] at hmc
        rw [ih cs hcslen hmc]

/-- The faithful `resolveTargets` agrees with the direct substitution scan:
for every code the scan meets, the name map built from the deduplicated code
list contains exactly the resolver's answer. -/
theorem resolveTargets_eq (f : Str → Option Str) (text : Str) :
    resolveTargets f text = resolveSubst (fun c => jsTruthy (f c)) text := by
  rw [resolveTargets]
  by_cases hc : jsSetDedup (markerCodes text) = []
  · simp only [hc, if_pos, ite_true]
    have hmc : markerCodes text = [] := by
      cases hmt : markerCodes text with
      | nil => rfl
      | cons x xs =>
        have : x ∈ jsSetDedup (markerCodes text) :=
          (jsSetDedup_mem _ x).mpr (by rw [hmt]; simp)
        rw [hc] at this
        simp at this
    rw [resolveSubst_no_marker _ _ hmc]
  · simp only [hc, if_neg, ite_false]
    apply resolveSubst_congr
    intro c hmem
    have hin : c ∈ jsSetDedup (markerCodes text) := (jsSetDedup_mem _ c).mpr hmem
    rw [lookupA_map_mem f _ c hin]
    rfl

theorem leadsWith_here (p b : Str) : leadsWith p (p ++ b) = true := by
  induction p with
  | nil => rfl
  | cons x xs ih => simp [leadsWith, ih]

theorem containsSub_right (pat x y : Str) (h : containsSub pat y = true) :
    containsSub pat (x ++ y) = true := by
  induction x with
  | nil => simpa using h
  | cons c cs ih =>
    rw [List.cons_append, containsSub]
    rw [ih]
    simp

theorem containsSub_here (pat b : Str) : containsSub pat (pat ++ b) = true := by
  cases pat with
  | nil =>
    cases b with
    | nil => rfl
    | cons c cs => rw [List.nil_append, containsSub]; simp [leadsWith]
  | cons p ps =>
    rw [List.cons_append, containsSub]
    have := leadsWith_here (p :: ps) b
    rw [List.cons_append] at this
    rw [this]
    simp

theorem containsSub_parts (pat a b : Str) :
    containsSub pat (a ++ pat ++ b) = true := by
  rw [show a ++ pat ++ b = a ++ (pat ++ b) by simp]
  exact containsSub_right pat a _ (containsSub_here pat b)

theorem resolveSubst_keeps_codes (f : Str → Option Str) (s : Str) :
    ∀ code ∈ markerCodes s, containsSub code (resolveSubst f s) = true := by
  suffices hh : ∀ n (s : Str), s.length ≤ n → ∀ code ∈ markerCodes s,
      containsSub code (resolveSubst f s) = true from
    fun code h => hh s.length s (le_refl _) code h
  intro n
  induction n with
  | zero =>
    intro s hn code hc
    have h0 : s = [] := List.eq_nil_of_length_eq_zero (Nat.le_zero.mp hn)
    subst h0
    simp [markerCodes_nil] at hc
  | succ k ih =>
    intro s hn code hc
    cases htm : tryMarker s with
    | some v =>
      obtain ⟨code0, r⟩ := v
      have hrlen : r.length ≤ k := by
        have := tryMarker_len htm
        omega
      rw [markerCodes_match htm] at hc
      rw [resolveSubst_match f htm]
      rcases List.mem_cons.mp hc with h | h
      · subst h
        cases hfc : f code with
        | some nm =>
          rw [substOne, hfc]
          rw [show (nm ++ '(' :: (code ++ [')'])) ++ resolveSubst f r =
            (nm ++ ['(']) ++ code ++ ([')'] ++ resolveSubst f r) by simp]
          exact containsSub_parts code _ _
        | none =>
          rw [substOne, hfc]
          rw [show code ++ resolveSubst f r = [] ++ code ++ resolveSubst f r by simp]
          exact containsSub_parts code _ _
      · exact containsSub_right code _ _ (ih r hrlen code h)
    | none =>
      cases s with
      | nil => simp [markerCodes_nil] at hc
      | cons c cs =>
        have hcslen : cs.length ≤ k := by simp at hn; omega
        rw [markerCodes_cons htm] at hc
        rw [resolveSubst_cons f htm]
        rw [show (c :: resolveSubst f cs : Str) = [c] ++ resolveSubst f cs from rfl]
        exact containsSub_right code _ _ (ih cs hcslen code hc)

theorem inertName_of_b (nm : Str) (h : inertNameB nm = true) : InertName nm := by
  rw [inertNameB.eq_def] at h
  cases nm with
  | nil => simp at h
  | cons x xs =>
    simp only [Bool.and_eq_true, Bool.not_eq_true', decide_eq_false_iff_not] at h
    obtain ⟨⟨⟨hd, hw⟩, hu⟩, hl⟩ := h
    exact ⟨by simp, fun a as ha => by
      injection ha with ha1 _
      rw [← ha1]
      exact ⟨hd, hw⟩, hu, hl⟩

theorem jsTruthy_eq_of_inert (f : Str → Option Str) (hf : InertNames f) :
    (fun c => jsTruthy (f c)) = f := by
  funext c
  cases hfc : f c with
  | none => rfl
  | some nm =>
    obtain ⟨hne, _, _, _⟩ := hf c nm hfc
    cases nm with
    | nil => exact absurd rfl hne
    | cons a as => rfl

theorem markerFree_of_bounded (t : Str)
    (h : ∀ i < t.length, tryMarker (t.drop i) = none) : MarkerFree t := by
  intro i
  by_cases hi : i < t.length
  · exact h i hi
  · rw [List.drop_eq_nil_of_le (by omega)]
    exact tryMarker_nil

/-- C1 (amended): every code the pipeline extracts occurs verbatim in the
output of the substitution stage (`resolveTargets` applied to the marked
text), whether or not a name was resolved for it. -/
theorem subst_keeps_codes (f : Str → Option Str) (t code : Str)
    (h : code ∈ extractedCodes t) :
    containsSub code (pipelineText f t) = true := by
  rw [pipelineText, resolveTargets_eq]
  exact resolveSubst_keeps_codes _ _ code h

/-- Witness for `subst_keeps_codes` at a concrete message and resolver. -/
theorem subst_keeps_codes_witness :
    "600000".data ∈ extractedCodes c1Text ∧
    containsSub "600000".data (pipelineText c1Resolver c1Text) = true :=
  ⟨by decide, subst_keeps_codes c1Resolver c1Text "600000".data (by decide)⟩

/-- C2 (counterexample): with a resolver whose resolved display name begins
with a digit, running the marking + substitution pipeline a second time
re-matches the freshly substituted name and wraps it again, so the pipeline is
not idempotent as stated. -/
theorem pipeline_not_idem_cex :
    pipelineText cexResolver (pipelineText cexResolver cexText) ≠
      pipelineText cexResolver cexText := by decide

/-- C2 (amended): the pipeline is idempotent provided the input contains no
pre-existing `__LOOKUP__` marker and every resolved name is inert (non-empty,
does not start with a digit or whitespace character, and contains neither an
underscore nor the label character `标`); in particular a span already
formatted as `标的:NAME(code)` with such a name is not re-matched. -/
theorem pipeline_idem (f : Str → Option Str) (hf : InertNames f) (t : Str)
    (hmf : MarkerFree t) :
    pipelineText f (pipelineText f t) = pipelineText f t := by
  have hfe := jsTruthy_eq_of_inert f hf
  simp only [pipelineText, resolveTargets_eq, hfe]
  rw [pipe_eq f t, pipe_eq f (pipeSub f t)]
  exact pipeSub_idem f hf t hmf

/-- Witness for `pipeline_idem` at a concrete message and resolver. -/
theorem pipeline_idem_witness :
    pipelineText idemResolver (pipelineText idemResolver idemText) =
      pipelineText idemResolver idemText := by
  apply pipeline_idem
  · intro c nm h
    by_cases hc : c = "700".data
    · rw [idemResolver, if_pos hc] at h
      have hnm : nm = "腾讯".data := by
        injection h with h1
        exact h1.symm
      subst hnm
      exact inertName_of_b _ (by decide)
    · rw [idemResolver, if_neg hc] at h
      exact absurd h (by simp)
  · apply markerFree_of_bounded
    decide

theorem nodup_count_le_one (l : List Str) (h : l.Nodup) (a : Str) :
    l.count a ≤ 1 := by
  induction l with
  | nil => simp
  | cons x xs ih =>
    rw [List.count_cons]
    rcases List.nodup_cons.mp h with ⟨hx, hxs⟩
    by_cases hax : a = x
    · subst hax
      have h0 : xs.count a = 0 := List.count_eq_zero.mpr hx
      simp [h0]
    · have h0 : (x == a) = false := by
        simp [BEq.comm]
        exact hax
      simp [h0]
      exact ih hxs

/-- C5: the resolver is invoked at most once per distinct code: the code list
handed to the parallel lookup is duplicate-free (each code is counted at most
once in it), and it covers exactly the extracted codes. -/
theorem resolver_called_once_per_code (t : Str) :
    (resolverCallCodes t).Nodup ∧
    (∀ code : Str, (resolverCallCodes t).count code ≤ 1) ∧
    (∀ code : Str, code ∈ resolverCallCodes t ↔ code ∈ extractedCodes t) := by
  refine ⟨jsSetDedup_nodup _, ?_, ?_⟩
  · intro code
    exact nodup_count_le_one _ (jsSetDedup_nodup _) code
  · intro code
    exact jsSetDedup_mem _ code

theorem parseSina_ne (body nm : Str) (h : parseSina body = some nm) : nm ≠ [] := by
  rw [parseSina] at h
  cases hg : (splitOnChar '"' body).get? 1 with
  | none => rw [hg] at h; simp at h
  | some part =>
    rw [hg] at h
    have h2 : (if trimJS ((splitOnChar ',' part).headD []) = [] then none
        else some (trimJS ((splitOnChar ',' part).headD []))) = some nm := h
    by_cases he : trimJS ((splitOnChar ',' part).headD []) = []
    · rw [if_pos he] at h2
      simp at h2
    · rw [if_neg he] at h2
      rw [← Option.some.inj h2]
      exact he

theorem parseTencent_ne (body nm : Str) (h : parseTencent body = some nm) :
    nm ≠ [] := by
  have h2 : (if 2 < (splitOnChar '~' body).length then
      (if trimJS ((splitOnChar '~' body).getD 1 []) = [] then none
       else some (trimJS ((splitOnChar '~' body).getD 1 [])))
      else none) = some nm := h
  by_cases hl : 2 < (splitOnChar '~' body).length
  · rw [if_pos hl] at h2
    by_cases he : trimJS ((splitOnChar '~' body).getD 1 []) = []
    · rw [if_pos he] at h2
      simp at h2
    · rw [if_neg he] at h2
      rw [← Option.some.inj h2]
      exact he
  · rw [if_neg hl] at h2
    simp at h2

theorem sina_name_ne (net : Str → FetchOutcome) (code nm : Str) (p : Mkt)
    (h : getStockNameFromSina net code p = some nm) : nm ≠ [] := by
  have h2 : (match net (sinaUrl p (if p = Mkt.hk then padHK code else code)) with
    | FetchOutcome.ok body => parseSina body
    | _ => none) = some nm := h
  cases hnet : net (sinaUrl p (if p = Mkt.hk then padHK code else code)) with
  | ok body =>
    rw [hnet] at h2
    exact parseSina_ne body nm h2
  | err => rw [hnet] at h2; simp at h2
  | notOk => rw [hnet] at h2; simp at h2

theorem tencent_name_ne (net : Str → FetchOutcome) (code nm : Str) (p : Mkt)
    (h : getStockNameFromTencent net code p = some nm) : nm ≠ [] := by
  have h2 : (match net (tencentUrl p (if p = Mkt.hk then padHK code else code)) with
    | FetchOutcome.ok body => parseTencent body
    | _ => none) = some nm := h
  cases hnet : net (tencentUrl p (if p = Mkt.hk then padHK code else code)) with
  | ok body =>
    rw [hnet] at h2
    exact parseTencent_ne body nm h2
  | err => rw [hnet] at h2; simp at h2
  | notOk => rw [hnet] at h2; simp at h2

/-- C3: resolver fallback policy.  When the market is UNKNOWN the result is
absent and no URL is requested; otherwise Sina is requested first and a
non-null result accepted as is; Tencent is requested exactly when Sina
yielded null, and the result is then Tencent's (absent when it also fails).
A provider failure is encoded in `net` (`.err`/`.notOk`) and can only yield
`none`, never an exception, and every resolved name is non-empty. -/
theorem resolver_fallback_policy (net : Str → FetchOutcome) (code : Str) :
    (classifyCode code = none → getChineseStockNameT net code = (none, [])) ∧
    (∀ p, classifyCode code = some p →
      (∀ nm, getStockNameFromSina net code p = some nm →
        getChineseStockNameT net code =
          (some nm, [sinaUrl p (if p = .hk then padHK code else code)])) ∧
      (getStockNameFromSina net code p = none →
        getChineseStockNameT net code =
          (getStockNameFromTencent net code p,
           [sinaUrl p (if p = .hk then padHK code else code),
            tencentUrl p (if p = .hk then padHK code else code)]))) ∧
    (∀ nm, (getChineseStockNameT net code).1 = some nm → nm ≠ []) := by
  refine ⟨?_, ?_, ?_⟩
  · intro h
    rw [getChineseStockNameT, h]
  · intro p hp
    constructor
    · intro nm hnm
      rw [getChineseStockNameT, hp]
      simp only [hnm]
    · intro hnone
      rw [getChineseStockNameT, hp]
      simp only [hnone]
  · intro nm h
    rw [getChineseStockNameT] at h
    cases hp : classifyCode code with
    | none => rw [hp] at h; simp at h
    | some p =>
      rw [hp] at h
      simp only [] at h
      cases hs : getStockNameFromSina net code p with
      | some nm2 =>
        rw [hs] at h
        simp at h
        rw [← h]
        exact sina_name_ne net code nm2 p hs
      | none =>
        rw [hs] at h
        simp at h
        exact tencent_name_ne net code nm p h

/-- Witness for `resolver_fallback_policy`: Sina fails for SZ code 002074 and
Tencent returns the name, matching the fallback scenario of the spec. -/
theorem resolver_fallback_policy_witness :
    getChineseStockNameT c3Net "002074".data =
      (some "国轩高科".data,
       [sinaUrl .sz "002074".data, tencentUrl .sz "002074".data]) ∧
    getChineseStockNameT c3Net "".data = (none, []) := by
  constructor
  · have h := (resolver_fallback_policy c3Net "002074".data).2.1 .sz (by decide)
    have h2 := h.2 (by decide)
    rw [h2]
    decide
  · exact (resolver_fallback_policy c3Net "".data).1 (by decide)

theorem classify_hk_len (code : Str) (h : classifyCode code = some .hk) :
    1 ≤ code.length ∧ code.length ≤ 5 := by
  by_cases h1 : code.all isDigitC ∧ 1 ≤ code.length ∧ code.length ≤ 5
  · exact ⟨h1.2.1, h1.2.2⟩
  · rw [classifyCode.eq_def, if_neg h1] at h
    by_cases h2 : code.all isDigitC ∧ code.length = 6
    · rw [if_pos h2] at h
      cases code with
      | nil => simp at h
      | cons x xs =>
        have h3 : (if x = '5' ∨ x = '6' then some Mkt.sh
            else if x = '0' ∨ x = '1' ∨ x = '3' then some Mkt.sz
            else none) = some Mkt.hk := h
        by_cases hx : x = '5' ∨ x = '6'
        · rw [if_pos hx] at h3; simp at h3
        · rw [if_neg hx] at h3
          by_cases hy : x = '0' ∨ x = '1' ∨ x = '3'
          · rw [if_pos hy] at h3; simp at h3
          · rw [if_neg hy] at h3; simp at h3
    · rw [if_neg h2] at h
      simp at h

theorem padHK_spec (code : Str) (h5 : code.length ≤ 5) :
    (padHK code).length = 5 ∧
    padHK code = List.replicate (5 - code.length) '0' ++ code := by
  rw [padHK]
  by_cases h : 5 ≤ code.length
  · have he : code.length = 5 := by omega
    rw [if_pos h]
    refine ⟨he, ?_⟩
    rw [he]
    simp
  · rw [if_neg h]
    refine ⟨?_, rfl⟩
    simp
    omega

/-- C9 (amended): in webhook.js every URL requested for a code classified HK
carries the code left-zero-padded to exactly 5 digits, for Sina and for
Tencent alike; for SH and SZ the code is placed in the URL unchanged.  (The
part_000 variant violates the padding for its Sina query; see the
counterexample.) -/
theorem hk_code_padded (net : Str → FetchOutcome) (code : Str) :
    (classifyCode code = some .hk →
      ((getChineseStockNameT net code).2 = [sinaUrl .hk (padHK code)] ∨
       (getChineseStockNameT net code).2 =
         [sinaUrl .hk (padHK code), tencentUrl .hk (padHK code)]) ∧
      (padHK code).length = 5 ∧
      padHK code = List.replicate (5 - code.length) '0' ++ code) ∧
    (∀ p, classifyCode code = some p → ¬ p = .hk →
      (getChineseStockNameT net code).2 = [sinaUrl p code] ∨
      (getChineseStockNameT net code).2 = [sinaUrl p code, tencentUrl p code]) := by
  constructor
  · intro h
    have hlen := classify_hk_len code h
    refine ⟨?_, (padHK_spec code hlen.2).1, (padHK_spec code hlen.2).2⟩
    rw [getChineseStockNameT, h]
    cases hs : getStockNameFromSina net code Mkt.hk with
    | some nm => left; simp [hs]
    | none => right; simp [hs]
  · intro p hp hne
    rw [getChineseStockNameT, hp]
    have hif : (if p = Mkt.hk then padHK code else code) = code := if_neg hne
    cases hs : getStockNameFromSina net code p with
    | some nm => left; simp [hs, hif]
    | none => right; simp [hs, hif]

/-- Witness for `hk_code_padded` at HK code 700 and SZ code 002074. -/
theorem hk_code_padded_witness :
    (((getChineseStockNameT errNet "700".data).2 =
        [sinaUrl .hk (padHK "700".data)] ∨
      (getChineseStockNameT errNet "700".data).2 =
        [sinaUrl .hk (padHK "700".data), tencentUrl .hk (padHK "700".data)]) ∧
     (padHK "700".data).length = 5 ∧
     padHK "700".data = List.replicate (5 - "700".data.length) '0' ++ "700".data) ∧
    ((getChineseStockNameT errNet "002074".data).2 =
        [sinaUrl .sz "002074".data] ∨
     (getChineseStockNameT errNet "002074".data).2 =
        [sinaUrl .sz "002074".data, tencentUrl .sz "002074".data]) :=
  ⟨(hk_code_padded errNet "700".data).1 (by decide),
   (hk_code_padded errNet "002074".data).2 .sz (by decide) (by decide)⟩

/-- C9 (counterexample): in the part_000 variant the Sina request for HK code
700 places the unpadded code in the URL (`...list=hk700`), not the padded
form the claim requires for both providers. -/
theorem part000_sina_unpadded_cex :
    (part000_getChineseStockNameT errNet "700".data).2 =
      [part000SinaUrl .hk "700".data, part000TencentUrl .hk "700".data] ∧
    part000SinaUrl .hk "700".data ≠
      "https://hq.sinajs.cn/list=".data ++ mprefStr .hk ++ padHK "700".data := by
  decide

theorem getRawBodyAux_ok (maxSize : Nat) (chunks : List Str) :
    ∀ acc size, size + (chunks.map bytesLen).sum ≤ maxSize →
      getRawBodyAux maxSize acc size chunks = ⟨.ok (acc ++ chunks.flatten), false⟩ := by
  induction chunks with
  | nil => intro acc size _; simp [getRawBodyAux]
  | cons c cs ih =>
    intro acc size h
    rw [getRawBodyAux]
    simp only [List.map_cons, List.sum_cons] at h
    rw [if_neg (by omega)]
    rw [ih (acc ++ c) (size + bytesLen c) (by omega)]
    simp

theorem getRawBodyAux_err (maxSize : Nat) (chunks : List Str) :
    ∀ acc size, size ≤ maxSize → maxSize < size + (chunks.map bytesLen).sum →
      getRawBodyAux maxSize acc size chunks =
        ⟨.error "Payload too large".data, true⟩ := by
  induction chunks with
  | nil => intro acc size h1 h2; simp at h2; omega
  | cons c cs ih =>
    intro acc size h1 h2
    rw [getRawBodyAux]
    simp only [List.map_cons, List.sum_cons] at h2
    by_cases hc : maxSize < size + bytesLen c
    · rw [if_pos hc]
    · rw [if_neg hc]
      exact ih (acc ++ c) (size + bytesLen c) (by omega) (by omega)

theorem jsAssign_fresh (k : Str) (v : JVal) :
    ∀ (kvs : JObj), ¬ intLikeKey k = true → jsHasKey k kvs = false →
      jsAssign k v kvs = objSnoc kvs k v
  | .nil, _, _ => rfl
  | .cons k2 v2 tl, hint, hfresh => by
    rw [jsHasKey] at hfresh
    simp only [Bool.or_eq_false_iff, decide_eq_false_iff_not] at hfresh
    rw [jsAssign, objSnoc, if_neg hfresh.1]
    rw [if_neg (by simp [hint]), jsAssign_fresh k v tl hint hfresh.2]

/-- C6.  Normalizer contract of `stringifyAlertBody` (webhook.js lines
53-62), amended: the function is total — a parse failure falls back to the
raw text used verbatim; a parsed JSON object is rendered as one
`key: value` line per stored entry joined by newlines, where assigning a
fresh non-array-index key appends (insertion order preserved for such
keys, while array-index keys are enumerated first); contrary to the spec,
the output is NOT trimmed of surrounding whitespace (see the
counterexample), and webhook.js extracts from it untrimmed. -/
theorem normalize_contract (raw : Str) :
    (jsonParse raw = none → stringifyAlertBody raw = raw) ∧
    (∀ kvs, jsonParse raw = some (.obj kvs) →
      stringifyAlertBody raw = joinLines ((jobjToList kvs).map entryLine)) ∧
    (∀ k v kvs, ¬ intLikeKey k = true → jsHasKey k kvs = false →
      jsAssign k v kvs = objSnoc kvs k v) := by
  refine ⟨fun h => ?_, fun kvs h => ?_, fun k v kvs h1 h2 => jsAssign_fresh k v kvs h1 h2⟩
  · rw [stringifyAlertBody, h]
  · rw [stringifyAlertBody, h]; rfl

/-- C6 witness: a two-key object body is rendered as two `key: value`
lines. -/
theorem normalize_contract_witness :
    stringifyAlertBody c6Raw = "a: 1\nb: x".data := by
  have h := (normalize_contract c6Raw).2.1
    (JObj.cons "a".data (.num "1".data) (.cons "b".data (.str "x".data) .nil))
    (by rfl)
  rw [h]; decide

/-- C6 counterexample to the trim clause: webhook.js's normalizer returns
the unparseable raw body verbatim, including its surrounding whitespace,
so its output is not always trimmed (the part_000 variant trims later, at
its line 204; webhook.js never does). -/
theorem normalize_not_trimmed_cex :
    stringifyAlertBody " x ".data = " x ".data ∧
    ¬ trimJS (stringifyAlertBody " x ".data) = stringifyAlertBody " x ".data := by
  constructor
  · decide
  · decide

/-! ### Parse/serialize roundtrip for JSON strings and the wecom envelope -/
theorem hex4_esc : ∀ m < 32,
    hex4 '0' '0' (hexDigitL (m / 16)) (hexDigitL (m % 16)) = some m := by
  decide

/-- Parsing the escaped serialization of a string recovers it exactly. -/
theorem parseJStrF_esc (text : Str) : ∀ (n : Nat) (rest : Str),
    (escapeJson text ++ '"' :: rest).length ≤ n →
    parseJStrF n (escapeJson text ++ '"' :: rest) = some (text, rest) := by
  induction text with
  | nil =>
    intro n rest hn
    simp only [escapeJson, List.nil_append] at hn ⊢
    rw [List.length_cons] at hn
    cases n with
    | zero => omega
    | succ m => rfl
  | cons c cs ih =>
    intro n rest hn
    rw [escapeJson, List.append_assoc] at hn ⊢
    by_cases h1 : c = '"'
    · subst h1
      rw [show escChar '"' ++ (escapeJson cs ++ '"' :: rest) =
          '\\' :: '"' :: (escapeJson cs ++ '"' :: rest) from rfl] at hn ⊢
      rw [List.length_cons, List.length_cons] at hn
      cases n with
      | zero => omega
      | succ m =>
        show optStep (parseJStrF m (escapeJson cs ++ '"' :: rest)) '"' =
          some ('"' :: cs, rest)
        rw [ih m rest (by omega)]
        rfl
    ·
      by_cases h2 : c = '\\'
      · subst h2
        rw [show escChar '\\' ++ (escapeJson cs ++ '"' :: rest) =
            '\\' :: '\\' :: (escapeJson cs ++ '"' :: rest) from rfl] at hn ⊢
        rw [List.length_cons, List.length_cons] at hn
        cases n with
        | zero => omega
        | succ m =>
          show optStep (parseJStrF m (escapeJson cs ++ '"' :: rest)) '\\' =
            some ('\\' :: cs, rest)
          rw [ih m rest (by omega)]
          rfl
      ·
        by_cases h3 : c = '\u0008'
        · subst h3
          rw [show escChar '\u0008' ++ (escapeJson cs ++ '"' :: rest) =
              '\\' :: 'b' :: (escapeJson cs ++ '"' :: rest) from rfl] at hn ⊢
          rw [List.length_cons, List.length_cons] at hn
          cases n with
          | zero => omega
          | succ m =>
            show optStep (parseJStrF m (escapeJson cs ++ '"' :: rest)) '\u0008' =
              some ('\u0008' :: cs, rest)
            rw [ih m rest (by omega)]
            rfl
        ·
          by_cases h4 : c = '\t'
          · subst h4
            rw [show escChar '\t' ++ (escapeJson cs ++ '"' :: rest) =
                '\\' :: 't' :: (escapeJson cs ++ '"' :: rest) from rfl] at hn ⊢
            rw [List.length_cons, List.length_cons] at hn
            cases n with
            | zero => omega
            | succ m =>
              show optStep (parseJStrF m (escapeJson cs ++ '"' :: rest)) '\t' =
                some ('\t' :: cs, rest)
              rw [ih m rest (by omega)]
              rfl
          ·
            by_cases h5 : c = '\n'
            · subst h5
              rw [show escChar '\n' ++ (escapeJson cs ++ '"' :: rest) =
                  '\\' :: 'n' :: (escapeJson cs ++ '"' :: rest) from rfl] at hn ⊢
              rw [List.length_cons, List.length_cons] at hn
              cases n with
              | zero => omega
              | succ m =>
                show optStep (parseJStrF m (escapeJson cs ++ '"' :: rest)) '\n' =
                  some ('\n' :: cs, rest)
                rw [ih m rest (by omega)]
                rfl
            ·
              by_cases h6 : c = '\u000c'
              · subst h6
                rw [show escChar '\u000c' ++ (escapeJson cs ++ '"' :: rest) =
                    '\\' :: 'f' :: (escapeJson cs ++ '"' :: rest) from rfl] at hn ⊢
                rw [List.length_cons, List.length_cons] at hn
                cases n with
                | zero => omega
                | succ m =>
                  show optStep (parseJStrF m (escapeJson cs ++ '"' :: rest)) '\u000c' =
                    some ('\u000c' :: cs, rest)
                  rw [ih m rest (by omega)]
                  rfl
              ·
                by_cases h7 : c = '\r'
                · subst h7
                  rw [show escChar '\r' ++ (escapeJson cs ++ '"' :: rest) =
                      '\\' :: 'r' :: (escapeJson cs ++ '"' :: rest) from rfl] at hn ⊢
                  rw [List.length_cons, List.length_cons] at hn
                  cases n with
                  | zero => omega
                  | succ m =>
                    show optStep (parseJStrF m (escapeJson cs ++ '"' :: rest)) '\r' =
                      some ('\r' :: cs, rest)
                    rw [ih m rest (by omega)]
                    rfl
                ·
                  by_cases h8 : c.toNat < 32
                  · have he : escChar c = ['\\', 'u', '0', '0',
                        hexDigitL (c.toNat / 16), hexDigitL (c.toNat % 16)] := by
                      rw [escChar, if_neg h1, if_neg h2, if_neg h3, if_neg h4, if_neg h5,
                        if_neg h6, if_neg h7, if_pos h8]
                    rw [he] at hn ⊢
                    rw [show (['\\', 'u', '0', '0', hexDigitL (c.toNat / 16),
                          hexDigitL (c.toNat % 16)] : Str) ++ (escapeJson cs ++ '"' :: rest) =
                        '\\' :: 'u' :: '0' :: '0' :: hexDigitL (c.toNat / 16) ::
                          hexDigitL (c.toNat % 16) :: (escapeJson cs ++ '"' :: rest) from
                        rfl] at hn ⊢
                    rw [List.length_cons, List.length_cons, List.length_cons,
                      List.length_cons, List.length_cons, List.length_cons] at hn
                    cases n with
                    | zero => omega
                    | succ m =>
                      show hexCont (fun t => parseJStrF m t)
                          (hex4 '0' '0' (hexDigitL (c.toNat / 16)) (hexDigitL (c.toNat % 16)))
                          (escapeJson cs ++ '"' :: rest) = some (c :: cs, rest)
                      rw [hex4_esc c.toNat h8]
                      show uCont (fun t => parseJStrF m t) c.toNat
                        (escapeJson cs ++ '"' :: rest) = some (c :: cs, rest)
                      unfold uCont
                      rw [if_neg (by omega), if_neg (by omega)]
                      show optStep (parseJStrF m (escapeJson cs ++ '"' :: rest))
                        (Char.ofNat c.toNat) = some (c :: cs, rest)
                      rw [ih m rest (by omega), Char.ofNat_toNat]
                      rfl
                  · have he : escChar c = [c] := by
                      rw [escChar, if_neg h1, if_neg h2, if_neg h3, if_neg h4, if_neg h5,
                        if_neg h6, if_neg h7, if_neg h8]
                    rw [he] at hn ⊢
                    rw [show ([c] : Str) ++ (escapeJson cs ++ '"' :: rest) =
                        c :: (escapeJson cs ++ '"' :: rest) from rfl] at hn ⊢
                    rw [List.length_cons] at hn
                    cases n with
                    | zero => omega
                    | succ m =>
                      show (if c = '"' then some (([] : Str), escapeJson cs ++ '"' :: rest)
                            else if c = '\\' then
                              bsCont (fun t => parseJStrF m t) (escapeJson cs ++ '"' :: rest)
                            else if c.toNat < 32 then none
                            else optStep (parseJStrF m (escapeJson cs ++ '"' :: rest)) c) =
                          some (c :: cs, rest)
                      rw [if_neg h1, if_neg h2, if_neg h8]
                      rw [ih m rest (by omega)]
                      rfl

theorem parseJString_esc (text rest : Str) :
    parseJString (escapeJson text ++ '"' :: rest) = some (text, rest) :=
  parseJStrF_esc text _ rest (Nat.le_refl _)

theorem env_shape (text : Str) :
    jstr (wecomEnvelope text) =
      '\x7b' :: '"' :: 'm' :: 's' :: 'g' :: 't' :: 'y' :: 'p' :: 'e' :: '"' :: ':' ::
      '"' :: 'm' :: 'a' :: 'r' :: 'k' :: 'd' :: 'o' :: 'w' :: 'n' :: '"' :: ',' ::
      '"' :: 'm' :: 'a' :: 'r' :: 'k' :: 'd' :: 'o' :: 'w' :: 'n' :: '"' :: ':' ::
      '\x7b' :: '"' :: 'c' :: 'o' :: 'n' :: 't' :: 'e' :: 'n' :: 't' :: '"' :: ':' ::
      '"' :: (escapeJson text ++ '"' :: '\x7d' :: '\x7d' :: []) := by
  simp [jstr, jobjStr, wecomEnvelope, escapeJson, escChar]

theorem wecomStrVal (text : Str) (n : Nat) (r : Str) :
    parseValF (n + 1) ('"' :: (escapeJson text ++ '"' :: r)) =
      some (.str text, r) := by
  show (match parseJString (escapeJson text ++ '"' :: r) with
        | some (cs, r2) => some (JVal.str cs, r2)
        | none => none) = some (JVal.str text, r)
  rw [parseJString_esc text r]

theorem wecomContentMember (text : Str) (n : Nat) (r : Str) :
    parseMembersF (n + 2) JObj.nil
      ('"' :: 'c' :: 'o' :: 'n' :: 't' :: 'e' :: 'n' :: 't' :: '"' :: ':' ::
        '"' :: (escapeJson text ++ '"' :: '\x7d' :: r)) =
      some (JObj.cons "content".data (.str text) .nil, r) := by
  have h0 := wecomStrVal text n ('\x7d' :: r)
  show (match parseValF (n + 1)
          ('"' :: (escapeJson text ++ '"' :: '\x7d' :: r)) with
        | none => none
        | some (v, r4) =>
          match skipJsonWs r4 with
          | ',' :: r5 =>
            parseMembersF (n + 1) (jsAssign "content".data v JObj.nil) r5
          | '\x7d' :: r5 => some (jsAssign "content".data v JObj.nil, r5)
          | _ => none) = some (JObj.cons "content".data (.str text) .nil, r)
  rw [h0]
  rfl

theorem wecomInnerObj (text : Str) (n : Nat) (r : Str) :
    parseValF (n + 3)
      ('\x7b' :: '"' :: 'c' :: 'o' :: 'n' :: 't' :: 'e' :: 'n' :: 't' :: '"' :: ':' ::
        '"' :: (escapeJson text ++ '"' :: '\x7d' :: r)) =
      some (.obj (.cons "content".data (.str text) .nil), r) := by
  have h1 := wecomContentMember text n r
  show (match parseMembersF (n + 2) JObj.nil
          ('"' :: 'c' :: 'o' :: 'n' :: 't' :: 'e' :: 'n' :: 't' :: '"' :: ':' ::
            '"' :: (escapeJson text ++ '"' :: '\x7d' :: r)) with
        | some (kvs, r2) => some (JVal.obj kvs, r2)
        | none => none) =
      some (JVal.obj (.cons "content".data (.str text) .nil), r)
  rw [h1]

theorem wecomMembers (text : Str) (n : Nat) (r : Str) :
    parseMembersF (n + 5) JObj.nil
      ('"' :: 'm' :: 's' :: 'g' :: 't' :: 'y' :: 'p' :: 'e' :: '"' :: ':' :: '"' ::
        'm' :: 'a' :: 'r' :: 'k' :: 'd' :: 'o' :: 'w' :: 'n' :: '"' :: ',' :: '"' ::
        'm' :: 'a' :: 'r' :: 'k' :: 'd' :: 'o' :: 'w' :: 'n' :: '"' :: ':' ::
        '\x7b' :: '"' :: 'c' :: 'o' :: 'n' :: 't' :: 'e' :: 'n' :: 't' :: '"' :: ':' ::
        '"' :: (escapeJson text ++ '"' :: '\x7d' :: '\x7d' :: r)) =
      some (JObj.cons "msgtype".data (.str "markdown".data)
        (.cons "markdown".data
          (.obj (.cons "content".data (.str text) .nil)) .nil), r) := by
  have h2 := wecomInnerObj text n ('\x7d' :: r)
  show (match parseValF (n + 3)
          ('\x7b' :: '"' :: 'c' :: 'o' :: 'n' :: 't' :: 'e' :: 'n' :: 't' :: '"' ::
            ':' :: '"' :: (escapeJson text ++ '"' :: '\x7d' :: '\x7d' :: r)) with
        | none => none
        | some (v, r4) =>
          match skipJsonWs r4 with
          | ',' :: r5 =>
            parseMembersF (n + 3)
              (jsAssign "markdown".data v
                (jsAssign "msgtype".data (.str "markdown".data) JObj.nil)) r5
          | '\x7d' :: r5 =>
            some (jsAssign "markdown".data v
              (jsAssign "msgtype".data (.str "markdown".data) JObj.nil), r5)
          | _ => none) =
      some (JObj.cons "msgtype".data (.str "markdown".data)
        (.cons "markdown".data
          (.obj (.cons "content".data (.str text) .nil)) .nil), r)
  rw [h2]
  rfl

theorem wecomTopVal (text : Str) (n : Nat) (r : Str) :
    parseValF (n + 6)
      ('\x7b' :: '"' :: 'm' :: 's' :: 'g' :: 't' :: 'y' :: 'p' :: 'e' :: '"' :: ':' ::
        '"' :: 'm' :: 'a' :: 'r' :: 'k' :: 'd' :: 'o' :: 'w' :: 'n' :: '"' :: ',' ::
        '"' :: 'm' :: 'a' :: 'r' :: 'k' :: 'd' :: 'o' :: 'w' :: 'n' :: '"' :: ':' ::
        '\x7b' :: '"' :: 'c' :: 'o' :: 'n' :: 't' :: 'e' :: 'n' :: 't' :: '"' :: ':' ::
        '"' :: (escapeJson text ++ '"' :: '\x7d' :: '\x7d' :: r)) =
      some (wecomEnvelope text, r) := by
  have h3 := wecomMembers text n r
  show (match parseMembersF (n + 5) JObj.nil
          ('"' :: 'm' :: 's' :: 'g' :: 't' :: 'y' :: 'p' :: 'e' :: '"' :: ':' :: '"' ::
            'm' :: 'a' :: 'r' :: 'k' :: 'd' :: 'o' :: 'w' :: 'n' :: '"' :: ',' :: '"' ::
            'm' :: 'a' :: 'r' :: 'k' :: 'd' :: 'o' :: 'w' :: 'n' :: '"' :: ':' ::
            '\x7b' :: '"' :: 'c' :: 'o' :: 'n' :: 't' :: 'e' :: 'n' :: 't' :: '"' ::
            ':' :: '"' :: (escapeJson text ++ '"' :: '\x7d' :: '\x7d' :: r)) with
        | some (kvs, r2) => some (JVal.obj kvs, r2)
        | none => none) = some (wecomEnvelope text, r)
  rw [h3]
  rfl

/-- Serializing the wecom envelope and parsing it back yields the envelope:
the relay body is valid JSON carrying exactly the intended object. -/
theorem wecom_roundtrip (text : Str) :
    jsonParse (jstr (wecomEnvelope text)) = some (wecomEnvelope text) := by
  rw [jsonParse, env_shape text]
  have hl : ('\x7b' :: '"' :: 'm' :: 's' :: 'g' :: 't' :: 'y' :: 'p' :: 'e' :: '"' ::
      ':' :: '"' :: 'm' :: 'a' :: 'r' :: 'k' :: 'd' :: 'o' :: 'w' :: 'n' :: '"' ::
      ',' :: '"' :: 'm' :: 'a' :: 'r' :: 'k' :: 'd' :: 'o' :: 'w' :: 'n' :: '"' ::
      ':' :: '\x7b' :: '"' :: 'c' :: 'o' :: 'n' :: 't' :: 'e' :: 'n' :: 't' :: '"' ::
      ':' :: '"' :: (escapeJson text ++ '"' :: '\x7d' :: '\x7d' :: ([] : Str))).length =
      (escapeJson text).length + 43 + 5 := by
    simp only [List.length_cons, List.length_append, List.length_nil]
  rw [hl]
  rw [show (escapeJson text).length + 43 + 5 + 1 =
      ((escapeJson text).length + 43) + 6 from by omega]
  rw [wecomTopVal text ((escapeJson text).length + 43) []]
  rfl

/-- C7.  Relay payload shape: with routing type "wecom" the relay body is
the compact JSON serialization of
`{"msgtype":"markdown","markdown":{"content":<final text>}}` sent as
application/json — and parsing that body back recovers exactly this
object, so it is valid JSON whose top level pairs `msgtype` with
"markdown" and `markdown.content` with the final text; with type "raw" or
absent (or any other value), the body is the final text verbatim with no
JSON wrapping, sent as text/plain; charset=utf-8. -/
theorem relay_payload_shape (cfgType : Option Str) (finalText : Str) :
    (cfgType = some "wecom".data →
      relayBody cfgType finalText = jstr (wecomEnvelope finalText) ∧
      relayContentType cfgType = "application/json".data ∧
      jsonParse (relayBody cfgType finalText) =
        some (wecomEnvelope finalText)) ∧
    (¬ cfgType = some "wecom".data →
      relayBody cfgType finalText = finalText ∧
      relayContentType cfgType = "text/plain; charset=utf-8".data) := by
  constructor
  · intro h
    have hw : isWecomCfg cfgType = true := by
      rw [isWecomCfg, h]; exact decide_eq_true rfl
    refine ⟨by rw [relayBody, hw]; rfl, by rw [relayContentType, hw]; rfl, ?_⟩
    rw [relayBody, hw]
    show jsonParse (jstr (wecomEnvelope finalText)) = some (wecomEnvelope finalText)
    exact wecom_roundtrip finalText
  · intro h
    have hw : isWecomCfg cfgType = false := by
      rw [isWecomCfg]; exact decide_eq_false h
    exact ⟨by rw [relayBody, hw]; rfl, by rw [relayContentType, hw]; rfl⟩

/-- C7 witness: with type "wecom" the body for final text "hi" is the
envelope JSON and parses back to it; with no type it is "hi" verbatim. -/
theorem relay_payload_shape_witness :
    relayBody (some "wecom".data) "hi".data =
      "\x7b\"msgtype\":\"markdown\",\"markdown\":\x7b\"content\":\"hi\"\x7d\x7d".data ∧
    jsonParse (relayBody (some "wecom".data) "hi".data) =
      some (wecomEnvelope "hi".data) ∧
    relayBody none "hi".data = "hi".data ∧
    relayContentType none = "text/plain; charset=utf-8".data := by
  have h := relay_payload_shape (some "wecom".data) "hi".data
  have h2 := relay_payload_shape none "hi".data
  refine ⟨?_, (h.1 rfl).2.2, (h2.2 (by decide)).1, (h2.2 (by decide)).2⟩
  rw [(h.1 rfl).1]
  decide

theorem handler_405 (wmap : Str → Option Cfg) (net : Str → FetchOutcome)
    (fwd : RelayCall → FwdOutcome) (req : WebReq)
    (hm : ¬ req.method = "POST".data) :
    handler wmap net fwd req = ⟨405, some "Method Not Allowed".data, none⟩ := by
  rw [handler, if_pos hm]

theorem handler_404 (wmap : Str → Option Cfg) (net : Str → FetchOutcome)
    (fwd : RelayCall → FwdOutcome) (req : WebReq)
    (hm : req.method = "POST".data) (hc : effCfg wmap req.key = none) :
    handler wmap net fwd req = ⟨404, some "Key not found".data, none⟩ := by
  rw [handler, if_neg (not_not_intro hm), hc]

theorem handler_500_body (wmap : Str → Option Cfg) (net : Str → FetchOutcome)
    (fwd : RelayCall → FwdOutcome) (req : WebReq) (cfg : Cfg) (e : Str)
    (hm : req.method = "POST".data) (hc : effCfg wmap req.key = some cfg)
    (ho : (getRawBody req.chunks).outcome = .error e) :
    handler wmap net fwd req = ⟨500, some "Internal Server Error".data, none⟩ := by
  rw [handler, if_neg (not_not_intro hm), hc, ho]

theorem handler_relay (wmap : Str → Option Cfg) (net : Str → FetchOutcome)
    (fwd : RelayCall → FwdOutcome) (req : WebReq) (cfg : Cfg) (raw : Str)
    (hm : req.method = "POST".data) (hc : effCfg wmap req.key = some cfg)
    (ho : (getRawBody req.chunks).outcome = .ok raw) :
    handler wmap net fwd req =
      relayResult (mkRelayCall cfg (pipelineFinalText net raw))
        (fwd (mkRelayCall cfg (pipelineFinalText net raw))) := by
  rw [handler, if_neg (not_not_intro hm), hc, ho]

/-- C8, amended to the handler of webhook.js (lines 271-320): every
request gets a definitive response with status among 200/404/405/500/502;
a non-POST method is rejected with 405 and no relay; a missing, unknown,
or unusable routing key answers 404 with no relay attempt; when a relay
was attempted and the destination answered non-2xx, the caller gets 502
with the destination's body echoed after "Forward failed: "; a thrown
forward fetch becomes 500; a 2xx destination response yields 200 with no
error field.  The part_000 variant does not surface relay failures: see
the `part000Handler` counterexample. -/
theorem handler_status_contract (wmap : Str → Option Cfg)
    (net : Str → FetchOutcome) (fwd : RelayCall → FwdOutcome) (req : WebReq) :
    ((handler wmap net fwd req).status = 200 ∨
      (handler wmap net fwd req).status = 405 ∨
      (handler wmap net fwd req).status = 404 ∨
      (handler wmap net fwd req).status = 500 ∨
      (handler wmap net fwd req).status = 502) ∧
    (¬ req.method = "POST".data →
      handler wmap net fwd req = ⟨405, some "Method Not Allowed".data, none⟩) ∧
    (req.method = "POST".data → effCfg wmap req.key = none →
      handler wmap net fwd req = ⟨404, some "Key not found".data, none⟩) ∧
    (∀ call txt, (handler wmap net fwd req).relay = some call →
      fwd call = .notOk txt →
      (handler wmap net fwd req).status = 502 ∧
      (handler wmap net fwd req).detail =
        some ("Forward failed: ".data ++ txt)) ∧
    (∀ call, (handler wmap net fwd req).relay = some call → fwd call = .err →
      (handler wmap net fwd req).status = 500) ∧
    (∀ call, (handler wmap net fwd req).relay = some call → fwd call = .ok →
      (handler wmap net fwd req).status = 200 ∧
      (handler wmap net fwd req).detail = none) := by
  by_cases hm : req.method = "POST".data
  · cases hc : effCfg wmap req.key with
    | none =>
      rw [handler_404 wmap net fwd req hm hc]
      refine ⟨by simp, fun h => absurd hm h, fun _ _ => rfl, ?_, ?_, ?_⟩
      · intro call txt hrel; simp at hrel
      · intro call hrel; simp at hrel
      · intro call hrel; simp at hrel
    | some cfg =>
      cases ho : (getRawBody req.chunks).outcome with
      | error e =>
        rw [handler_500_body wmap net fwd req cfg e hm hc ho]
        refine ⟨by simp, fun h => absurd hm h,
          fun _ hc2 => by simp [hc] at hc2, ?_, ?_, ?_⟩
        · intro call txt hrel; simp at hrel
        · intro call hrel; simp at hrel
        · intro call hrel; simp at hrel
      | ok raw =>
        rw [handler_relay wmap net fwd req cfg raw hm hc ho]
        cases hf : fwd (mkRelayCall cfg (pipelineFinalText net raw)) with
        | err =>
          refine ⟨by simp [relayResult], fun h => absurd hm h,
            fun _ hc2 => by simp [hc] at hc2, ?_, ?_, ?_⟩
          · intro call txt hrel hfwd
            simp only [relayResult, Option.some.injEq] at hrel
            rw [← hrel, hf] at hfwd
            cases hfwd
          · intro call hrel hfwd
            simp [relayResult]
          · intro call hrel hfwd
            simp only [relayResult, Option.some.injEq] at hrel
            rw [← hrel, hf] at hfwd
            cases hfwd
        | notOk txt0 =>
          refine ⟨by simp [relayResult], fun h => absurd hm h,
            fun _ hc2 => by simp [hc] at hc2, ?_, ?_, ?_⟩
          · intro call txt hrel hfwd
            simp only [relayResult, Option.some.injEq] at hrel
            rw [← hrel, hf] at hfwd
            cases hfwd
            exact ⟨rfl, rfl⟩
          · intro call hrel hfwd
            simp only [relayResult, Option.some.injEq] at hrel
            rw [← hrel, hf] at hfwd
            cases hfwd
          · intro call hrel hfwd
            simp only [relayResult, Option.some.injEq] at hrel
            rw [← hrel, hf] at hfwd
            cases hfwd
        | ok =>
          refine ⟨by simp [relayResult], fun h => absurd hm h,
            fun _ hc2 => by simp [hc] at hc2, ?_, ?_, ?_⟩
          · intro call txt hrel hfwd
            simp only [relayResult, Option.some.injEq] at hrel
            rw [← hrel, hf] at hfwd
            cases hfwd
          · intro call hrel hfwd
            simp only [relayResult, Option.some.injEq] at hrel
            rw [← hrel, hf] at hfwd
            cases hfwd
          · intro call hrel hfwd
            exact ⟨rfl, rfl⟩
  · rw [handler_405 wmap net fwd req hm]
    refine ⟨by simp, fun _ => rfl, fun h2 _ => absurd h2 hm, ?_, ?_, ?_⟩
    · intro call txt hrel; simp at hrel
    · intro call hrel; simp at hrel
    · intro call hrel; simp at hrel

/-- C8 witness: a POST with a known key whose destination answers non-2xx
with body "boom" is answered 502 with the echoed diagnostic. -/
theorem handler_status_contract_witness :
    (handler c8Wmap errNet c8Fwd c8Req).status = 502 ∧
    (handler c8Wmap errNet c8Fwd c8Req).detail =
      some ("Forward failed: ".data ++ "boom".data) :=
  (handler_status_contract c8Wmap errNet c8Fwd c8Req).2.2.2.1
    ⟨"https://dst.example/hook".data, "text/plain; charset=utf-8".data,
      "hi".data⟩ "boom".data rfl rfl

/-- C10.  Payload size limit of `getRawBody` (webhook.js lines 20-36) as
reached from the handler (line 281, default `maxSize` 1024*1024): a body
of at most 1048576 bytes is read in full, byte for byte, as the
concatenation of its chunks; a larger body rejects with "Payload too
large" and destroys the request, and the handler then answers its generic
500 error without attempting a relay. -/
theorem payload_limit (chunks : List Str) :
    ((chunks.map bytesLen).sum ≤ 1048576 →
      getRawBody chunks = ⟨.ok chunks.flatten, false⟩) ∧
    (1048576 < (chunks.map bytesLen).sum →
      getRawBody chunks = ⟨.error "Payload too large".data, true⟩) ∧
    (∀ (wmap : Str → Option Cfg) (net : Str → FetchOutcome)
        (fwd : RelayCall → FwdOutcome) (req : WebReq) (cfg : Cfg),
      req.method = "POST".data → effCfg wmap req.key = some cfg →
      req.chunks = chunks → 1048576 < (chunks.map bytesLen).sum →
      handler wmap net fwd req =
        ⟨500, some "Internal Server Error".data, none⟩) := by
  refine ⟨?_, ?_, ?_⟩
  · intro h
    rw [getRawBody, getRawBodyAux_ok 1048576 chunks [] 0 (by omega)]
    simp
  · intro h
    rw [getRawBody, getRawBodyAux_err 1048576 chunks [] 0 (by omega) (by omega)]
  · intro wmap net fwd req cfg hm hc hch hbig
    have ho : (getRawBody req.chunks).outcome =
        .error "Payload too large".data := by
      rw [hch, getRawBody,
        getRawBodyAux_err 1048576 chunks [] 0 (by omega) (by omega)]
    exact handler_500_body wmap net fwd req cfg _ hm hc ho

theorem bytesLen_replicate_a (n : Nat) :
    bytesLen (List.replicate n 'a') = n := by
  rw [bytesLen, List.map_replicate]
  rw [show utf8Len 'a' = 1 from rfl, List.sum_replicate]
  simp

/-- C10 witness: one chunk of 1048577 one-byte characters crosses the
limit; the promise rejects, the request is destroyed, and a POST carrying
it is answered 500 with no relay. -/
theorem payload_limit_witness :
    getRawBody c10Chunks = ⟨.error "Payload too large".data, true⟩ ∧
    handler c8Wmap errNet c8Fwd ⟨"POST".data, some "k1".data, c10Chunks⟩ =
      ⟨500, some "Internal Server Error".data, none⟩ := by
  have hbig : 1048576 < (c10Chunks.map bytesLen).sum := by
    rw [c10Chunks, List.map_cons, List.map_nil, List.sum_cons, List.sum_nil,
      bytesLen_replicate_a]
    omega
  exact ⟨(payload_limit c10Chunks).2.1 hbig,
    (payload_limit c10Chunks).2.2 c8Wmap errNet c8Fwd _
      ⟨"https://dst.example/hook".data, none⟩ rfl rfl rfl hbig⟩

/-- C1 counterexample: with no name resolved, both codes extracted from
`c1Msg` survive the substitution stage verbatim, but the beautifier drops
the second alert block (it has no signal and no price), so the final text
handed to the relay does not contain the extracted code 000001. -/
theorem beautify_drops_code_cex :
    "000001".data ∈ extractedCodes (stringifyAlertBody c1Msg) ∧
    containsSub "000001".data (resolveTargets (getChineseStockName errNet)
      (replaceTargets (stringifyAlertBody c1Msg))) = true ∧
    containsSub "000001".data (pipelineFinalText errNet c1Msg) = false := by
  refine ⟨by decide, by decide, by decide⟩

/-- C8 counterexample: in the part_000 variant a relay failure is not
surfaced — with a destination answering non-2xx ("boom") the handler
still relays and then answers 200 success with no error field, and with
an unreachable destination it answers a bare 500 without the
destination's detail; neither is the claimed 5xx/502 echoing the
destination's diagnostics. -/
theorem part000_forward_failure_cex :
    (part000Handler c8Wmap errNet c8Fwd c8Req).relay.isSome = true ∧
    (part000Handler c8Wmap errNet c8Fwd c8Req).status = 200 ∧
    (part000Handler c8Wmap errNet c8Fwd c8Req).detail = none ∧
    (part000Handler c8Wmap errNet (fun _ => .err) c8Req).status = 500 ∧
    (part000Handler c8Wmap errNet (fun _ => .err) c8Req).detail =
      some "Internal Server Error".data := by
  exact ⟨rfl, rfl, rfl, rfl, rfl⟩
